import Mathlib

/-!
Verification development for the deal-selection pipeline of the
steam-discount-bot repository (src/src/app/api/cron/route.ts, first variant,
the one the specification's line references point at).

The embedding translates the TypeScript source into executable Lean
definitions:

* `normalizeGameName` embeds the title normalizer
  `name.toLowerCase().replace(/[^a-z0-9\s]/g, '').replace(/\s+/g, ' ').trim()`;
* `bestDeals` embeds the deduplication fold over a JS `Map` (lines 233-250);
* `repostHoursFor` embeds the adaptive repost window (lines 257-264);
* `skipCheck` embeds the history query
  `.ilike('game_title', t).gt('created_at', w)` plus the skip decision;
* `runLoop` / `runPipeline` embed the selector/publisher loop (lines 266-399),
  with the external capabilities (image fetch, Twitter publish, history store)
  supplied as oracles in `RunEnv`, and an event trace recording what the loop
  did (skips, attempts, outcomes) so that control-flow claims are statable;
* `fetchSteamDeals` / `fetchEpicDeals` / `fetchGOGDeals` embed the three
  source adapters (lines 39-196) over structured models of the upstream HTTP
  responses, with `HttpResult` exposing the transport / non-2xx / parse
  failure modes that the adapters' try/catch blocks absorb.

Spec-side definitions (`wordsOf`, `joinWords`, `survivorFold`) are stated
separately and related to the source definitions by theorems.
-/

/-! ### Character-level primitives of the normalizer -/

/-- Embedding of JavaScript `String.prototype.toLowerCase` at a single
character, yielding a character sequence (one Unicode lowercase mapping
produces two characters).  ASCII `A`-`Z` shift down by 32; the two Unicode
case mappings whose lowercase forms contain ASCII characters are mapped in
full (U+212A KELVIN SIGN to `k`, and U+0130 LATIN CAPITAL LETTER I WITH DOT
ABOVE to `i` followed by U+0307 COMBINING DOT ABOVE); every other character
is returned unchanged — the remaining Unicode case mappings send non-ASCII
characters to non-ASCII, non-whitespace characters, which the downstream
`[^a-z0-9\s]` strip and whitespace tests treat exactly like the unlowered
originals. -/
def jsToLowerChars (c : Char) : List Char :=
  if 'A' ≤ c ∧ c ≤ 'Z' then [Char.ofNat (c.toNat + 32)]
  else if c.toNat = 0x212A then ['k']
  else if c.toNat = 0x130 then ['i', Char.ofNat 0x307]
  else [c]

/-- JavaScript `s.toLowerCase()` over a whole character list. -/
def jsToLowerString : List Char → List Char
  | [] => []
  | c :: rest => jsToLowerChars c ++ jsToLowerString rest

/-- Characters kept by the character class `[a-z0-9]` (after lowercasing). -/
def isLowerAlnum (c : Char) : Bool :=
  decide (('a' ≤ c ∧ c ≤ 'z') ∨ ('0' ≤ c ∧ c ≤ '9'))

/-- Characters matched by the JavaScript regex class `\s` (ECMAScript
WhiteSpace plus LineTerminator, by code point). -/
def jsWhitespace (c : Char) : Bool :=
  let n := c.toNat
  n = 0x20 || n = 0x09 || n = 0x0A || n = 0x0B || n = 0x0C || n = 0x0D ||
  n = 0xA0 || n = 0x1680 || (0x2000 ≤ n && n ≤ 0x200A) ||
  n = 0x2028 || n = 0x2029 || n = 0x202F || n = 0x205F || n = 0x3000 ||
  n = 0xFEFF

/-- Characters kept by `.replace(/[^a-z0-9\s]/g, '')`: lowercase
alphanumerics and whitespace. -/
def keepChar (c : Char) : Bool :=
  isLowerAlnum c || jsWhitespace c

/-- Embedding of `.replace(/\s+/g, ' ')`: every maximal run of whitespace
characters is replaced by a single space.  The boolean flag records whether
the previous character belonged to a whitespace run that has already emitted
its space. -/
def collapseAux : Bool → List Char → List Char
  | _, [] => []
  | inRun, c :: rest =>
    if jsWhitespace c then
      if inRun then collapseAux true rest
      else ' ' :: collapseAux true rest
    else c :: collapseAux false rest

/-- Right trim: drop trailing whitespace (`reverse ∘ dropWhile ∘ reverse`). -/
def rtrimWs (l : List Char) : List Char :=
  (l.reverse.dropWhile jsWhitespace).reverse

/-- Embedding of `String.prototype.trim`: drop leading and trailing
whitespace. -/
def trimWs (l : List Char) : List Char :=
  rtrimWs (l.dropWhile jsWhitespace)

/-- Embedding of `normalizeGameName` (route.ts lines 230-231):
`name.toLowerCase().replace(/[^a-z0-9\s]/g, '').replace(/\s+/g, ' ').trim()`. -/
def normalizeGameName (name : String) : String :=
  String.mk (trimWs (collapseAux false ((jsToLowerString name.data).filter keepChar)))

/-- Embedding of JavaScript `a.toLowerCase()` on a whole string (as a
character list). -/
def lowerData (s : String) : List Char :=
  jsToLowerString s.data

/-- Case-insensitive equality of two strings, embedding the semantics of the
Supabase `ilike` filter for a pattern that contains no `%` or `_` wildcard
(the normalized titles the pipeline queries with never do). -/
def ilikeEq (a b : String) : Bool :=
  decide (lowerData a = lowerData b)

/-- Does `needle` occur as a contiguous sublist of `hay`? -/
def hasInfix (hay needle : List Char) : Bool :=
  needle.isPrefixOf hay ||
  match hay with
  | [] => false
  | _ :: t => hasInfix t needle

/-- Embedding of JavaScript `a.includes(b)` on character lists. -/
def jsIncludes (a b : String) : Bool :=
  hasInfix a.data b.data

/-! ### Numeric helpers used by the pipeline -/

/-- Embedding of JavaScript `Math.round` on an exact rational: the nearest
integer, with ties rounded toward positive infinity.  Computed as
`⌊q + 1/2⌋ = ⌊(2 num + den) / (2 den)⌋` with integer floor division so that
concrete values evaluate inside the kernel. -/
def jsRound (q : ℚ) : ℤ :=
  Int.fdiv (2 * q.num + (q.den : ℤ)) (2 * (q.den : ℤ))

/-- Exact division of a rational by 100, used for Steam's minor-unit (cents)
prices (`item.final_price / 100`). -/
def divBy100 (q : ℚ) : ℚ :=
  mkRat q.num (q.den * 100)

/-- Embedding of `parseInt(game.id.replace(/\D/g, '').slice(0, 9)) || 0`
(route.ts line 351): keep the first nine digit characters of the id and read
them as a decimal number; an id without digits gives `NaN`, which `|| 0`
turns into 0, matching the empty fold. -/
def numericAppId (id : String) : ℕ :=
  ((id.data.filter (fun c => decide ('0' ≤ c ∧ c ≤ '9'))).take 9).foldl
    (fun n c => n * 10 + (c.toNat - 48)) 0

/-! ### The Deal value object and the posted-games history -/

/-- The normalized deal shape every adapter emits (the object literals pushed
in `fetchSteamDeals` / `fetchEpicDeals` / `fetchGOGDeals`). -/
structure Deal where
  id : String
  name : String
  discount_percent : ℤ
  final_price : ℚ
  currency : String
  platform : String
  metacritic : Option ℤ := none
  url : String
  header_image : Option String
deriving DecidableEq

/-- A row of the `posted_games` table: the columns the pipeline writes
(`app_id`, `game_title`, `price_usd`) plus the server-side `created_at`
timestamp (milliseconds) that the repost-window query filters on. -/
structure PostRecord where
  app_id : ℕ
  game_title : String
  price_usd : ℚ
  created_at : ℤ
deriving DecidableEq

/-! ### Deduplication (route.ts lines 233-250) -/

/-- Lookup in the insertion-ordered association list modelling the JS `Map`
(`bestDeals.get(key)`). -/
def alookup (key : String) : List (String × Deal) → Option Deal
  | [] => none
  | (k, v) :: rest => if k = key then some v else alookup key rest

/-- Update in the insertion-ordered association list modelling the JS `Map`
(`bestDeals.set(key, deal)`): replace in place if the key is present,
append otherwise. -/
def aset (key : String) (v : Deal) : List (String × Deal) → List (String × Deal)
  | [] => [(key, v)]
  | (k, w) :: rest => if k = key then (k, v) :: rest else (k, w) :: aset key v rest

/-- The replacement condition of the dedup fold:
`isBetterDiscount || isSameDiscountLowerPrice` (route.ts lines 242-246). -/
def beatsIncumbent (deal existing : Deal) : Bool :=
  decide (existing.discount_percent < deal.discount_percent) ||
  (decide (deal.discount_percent = existing.discount_percent) &&
   decide (deal.final_price < existing.final_price))

/-- One step of the dedup fold: the body of
`for (const deal of allDeals) { ... }` (route.ts lines 234-250). -/
def dedupStep (m : List (String × Deal)) (deal : Deal) : List (String × Deal) :=
  let key := normalizeGameName deal.name
  match alookup key m with
  | none => aset key deal m
  | some existing => if beatsIncumbent deal existing then aset key deal m else m

/-- The deduplicated map `bestDeals` built by folding `dedupStep` over the
concatenated adapter output. -/
def bestDeals (allDeals : List Deal) : List (String × Deal) :=
  allDeals.foldl dedupStep []

/-- Spec-side single-group survivor rule: starting from the first deal of a
group, keep the incumbent unless the next deal beats it. -/
def keepOrReplace (incumbent deal : Deal) : Deal :=
  if beatsIncumbent deal incumbent then deal else incumbent

/-- Spec-side survivor of a list of same-key deals under the fold rule
(`none` for the empty group). -/
def survivorFold : List Deal → Option Deal
  | [] => none
  | d :: ds => some (ds.foldl keepOrReplace d)

/-- Stable insertion (descending by `discount_percent`): a new element goes
after every element with greater-or-equal discount.  Folding it left to
right is a stable descending sort, the observable behaviour of
`.sort((a, b) => b.discount_percent - a.discount_percent)` on line 253. -/
def insertByDiscountDesc (x : Deal) : List Deal → List Deal
  | [] => [x]
  | y :: ys =>
    if y.discount_percent < x.discount_percent then x :: y :: ys
    else y :: insertByDiscountDesc x ys

/-- Stable descending sort by discount. -/
def sortByDiscountDesc (l : List Deal) : List Deal :=
  l.foldl (fun acc x => insertByDiscountDesc x acc) []

/-- `uniqueDeals`: the values of the dedup map, sorted descending by
discount (route.ts lines 252-253). -/
def uniqueDealsOf (allDeals : List Deal) : List Deal :=
  sortByDiscountDesc ((bestDeals allDeals).map Prod.snd)

/-! ### Repost window (route.ts lines 257-264) -/

/-- The adaptive repost window in hours, keyed by the unique-deal pool size:
`let repostHours = 48; if (poolSize >= 50) repostHours = 120;
else if (poolSize >= 30) repostHours = 72;`. -/
def repostHoursFor (poolSize : ℕ) : ℕ :=
  if 50 ≤ poolSize then 120 else if 30 ≤ poolSize then 72 else 48

/-! ### Selector/publisher loop (route.ts lines 266-399) -/

/-- `MAX_TWEET_ATTEMPTS` (route.ts line 15). -/
def MAX_TWEET_ATTEMPTS : ℕ := 3

/-- `BLACKLISTED_GAMES` (route.ts lines 18-22). -/
def BLACKLISTED_GAMES : List String :=
  ["disco elysium", "wavetale", "skald"]

/-- `BLACKLISTED_GAMES.some(bg => game.name.toLowerCase().includes(bg))`
(route.ts line 298). -/
def isBlacklisted (name : String) : Bool :=
  BLACKLISTED_GAMES.any (fun bg => jsIncludes (String.mk (lowerData name)) bg)

/-- Outcome of fetching a candidate's header image: the fetch promise
rejects, resolves with a non-2xx status (`!imgRes.ok`), or succeeds. -/
inductive ImgResult where
  | fetchThrow
  | notOk
  | ok
deriving DecidableEq

/-- Outcome of one publish attempt (media upload plus tweet): success, a
429 rate-limit error, or any other (transient) error. -/
inductive PublishResult where
  | success
  | rateLimited
  | transientError
deriving DecidableEq

/-- The external collaborators of one pipeline run: the `posted_games`
history, the current time (milliseconds), the image-fetch oracle (by image
URL) and the publish oracle (by attempt number). -/
structure RunEnv where
  history : List PostRecord
  now : ℤ
  image : String → ImgResult
  publish : ℕ → PublishResult

/-- Observable events of the selector loop, in candidate order. -/
inductive Event where
  | skipPosted (g : Deal)
  | skipNoImage (g : Deal)
  | skipBlacklist (g : Deal)
  | imageNotOk (g : Deal)
  | attemptErrored (g : Deal)
  | rateLimitHit (g : Deal)
  | tweetPosted (g : Deal)
  | budgetStop
deriving DecidableEq

/-- Terminal outcome of one run. -/
inductive RunResult where
  | posted (g : Deal)
  | noneEligible
  | rateLimited
deriving DecidableEq

/-- What a run produced: its terminal outcome, the `posted_games` rows it
inserted, the final attempt counter, the number of cooldown delays awaited,
and the event trace. -/
structure RunOutput where
  result : RunResult
  inserted : List PostRecord
  attempts : ℕ
  delays : ℕ
  events : List Event
deriving DecidableEq

/-- The skip decision of the history check (route.ts lines 278-291): the
query returns the records with an `ilike` title match and
`created_at > cutoff`; the candidate is skipped when the result is
non-empty. -/
def skipCheck (history : List PostRecord) (title : String) (cutoff : ℤ) : Bool :=
  !(history.filter
      (fun r => ilikeEq r.game_title title && decide (cutoff < r.created_at))).isEmpty

/-- The row inserted on a successful publish (route.ts lines 351-358), with
`created_at` set by the store to the run's current time. -/
def mkRecord (env : RunEnv) (g : Deal) : PostRecord :=
  { app_id := numericAppId g.id
    game_title := normalizeGameName g.name
    price_usd := g.final_price
    created_at := env.now }

/-- Prefix an event onto a run output (the `continue` branches of the loop
pass the rest of the run through unchanged apart from the trace). -/
def prependEvent (e : Event) (o : RunOutput) : RunOutput :=
  { o with events := e :: o.events }

/-- Embedding of the candidate loop `for (const game of uniqueDeals)`
(route.ts lines 269-395), carrying the attempt counter and the count of
3-second cooldown delays awaited so far. -/
def runLoop (env : RunEnv) (cutoff : ℤ) : List Deal → ℕ → ℕ → RunOutput
  | [], a, d => ⟨.noneEligible, [], a, d, []⟩
  | g :: rest, a, d =>
    if MAX_TWEET_ATTEMPTS ≤ a then ⟨.noneEligible, [], a, d, [.budgetStop]⟩
    else
      if skipCheck env.history (normalizeGameName g.name) cutoff then
        prependEvent (.skipPosted g) (runLoop env cutoff rest a d)
      else
        match g.header_image with
        | none => prependEvent (.skipNoImage g) (runLoop env cutoff rest a d)
        | some img =>
          if isBlacklisted g.name then
            prependEvent (.skipBlacklist g) (runLoop env cutoff rest a d)
          else
            let a' := a + 1
            let d' := if 1 < a' then d + 1 else d
            match env.image img with
            | .notOk => prependEvent (.imageNotOk g) (runLoop env cutoff rest a' d')
            | .fetchThrow => prependEvent (.attemptErrored g) (runLoop env cutoff rest a' d')
            | .ok =>
              match env.publish a' with
              | .success => ⟨.posted g, [mkRecord env g], a', d', [.tweetPosted g]⟩
              | .rateLimited => ⟨.rateLimited, [], a', d', [.rateLimitHit g]⟩
              | .transientError =>
                prependEvent (.attemptErrored g) (runLoop env cutoff rest a' d')

/-- One full pipeline run over an already-fetched combined deal list:
deduplicate, rank, size the repost window, and run the selector loop. -/
def runPipeline (env : RunEnv) (allDeals : List Deal) : RunOutput :=
  let uniqueDeals := uniqueDealsOf allDeals
  let cutoff := env.now - (repostHoursFor uniqueDeals.length : ℤ) * 3600000
  runLoop env cutoff uniqueDeals 0 0

/-! ### Source adapters (route.ts lines 39-196) -/

/-- Outcome of one upstream HTTP request from an adapter's point of view:
the fetch promise rejects (transport failure), the response is non-2xx
(`!res.ok`), `res.json()` throws (malformed payload), or a structured
payload is obtained. -/
inductive HttpResult (α : Type) where
  | netError
  | notOk
  | parseError
  | payload (data : α)
deriving DecidableEq

/-- Any of the three non-payload outcomes: a transport, upstream-status or
parse failure condition. -/
def HttpResult.isFailure : HttpResult α → Bool
  | .payload _ => false
  | _ => true

/-- One item of Steam's `featuredcategories` response. -/
structure SteamItem where
  id : ℕ
  name : String
  discounted : Bool
  discount_percent : ℤ
  final_price : ℚ
deriving DecidableEq

/-- The three category buckets the Steam adapter unions (lines 49-53). -/
structure SteamData where
  specials : List SteamItem
  top_sellers : List SteamItem
  new_releases : List SteamItem
deriving DecidableEq

/-- The Deal built for a kept Steam item (lines 60-69). -/
def mkSteamDeal (item : SteamItem) : Deal :=
  { id := toString item.id
    name := item.name
    discount_percent := item.discount_percent
    final_price := divBy100 item.final_price
    currency := "USD"
    platform := "Steam"
    url := "https://store.steampowered.com/app/" ++ toString item.id
    header_image :=
      some ("https://cdn.akamai.steamstatic.com/steam/apps/" ++ toString item.id
        ++ "/header.jpg") }

/-- The Steam item loop (lines 55-71): a `seen` set deduplicates ids, and
items flagged discounted with `discount_percent >= 25` are pushed. -/
def steamLoop : List SteamItem → List ℕ → List Deal → List Deal
  | [], _, deals => deals
  | item :: rest, seen, deals =>
    if item.id ∈ seen then steamLoop rest seen deals
    else
      if item.discounted && decide (25 ≤ item.discount_percent) then
        steamLoop rest (item.id :: seen) (deals ++ [mkSteamDeal item])
      else steamLoop rest (item.id :: seen) deals

/-- Embedding of `fetchSteamDeals` (lines 39-78): the whole body sits in one
try/catch over an empty accumulator, so every failure mode leaves the
accumulator empty. -/
def fetchSteamDeals : HttpResult SteamData → List Deal
  | .netError => []
  | .parseError => []
  | .notOk => []
  | .payload data => steamLoop (data.specials ++ data.top_sellers ++ data.new_releases) [] []

/-- One key image of an Epic catalog entry. -/
structure EpicKeyImage where
  imgType : String
  url : String
deriving DecidableEq

/-- One game of Epic's `freeGamesPromotions` response, with the nested
fields the adapter reads flattened into the shape it probes. -/
structure EpicGame where
  id : String
  title : String
  hasPromotions : Bool
  promoDiscountPercentages : List ℤ
  productSlug : Option String
  urlSlug : Option String
  pageSlug : Option String
  keyImages : List EpicKeyImage
deriving DecidableEq

/-- JavaScript `x || y` on optional strings: an absent or empty left operand
falls through to the right. -/
def jsOrS : Option String → Option String → Option String
  | some s, b => if s = "" then b else some s
  | none, b => b

/-- Slug resolution `game.productSlug || game.urlSlug ||
game.catalogNs?.mappings?.[0]?.pageSlug` (line 99). -/
def epicSlug (g : EpicGame) : Option String :=
  jsOrS g.productSlug (jsOrS g.urlSlug g.pageSlug)

/-- Image resolution (lines 110-111): the first `OfferImageWide` key image,
falling back to the first key image of any type. -/
def epicImage (imgs : List EpicKeyImage) : Option String :=
  jsOrS ((imgs.filter (fun i => i.imgType = "OfferImageWide")).head?.map (·.url))
    ((imgs.head?.map (·.url)))

/-- The Deal built for a kept Epic free game (lines 101-112). -/
def mkEpicFreeDeal (g : EpicGame) (slug : String) : Deal :=
  { id := "epic_free_" ++ g.id
    name := g.title
    discount_percent := 100
    final_price := 0
    currency := "USD"
    platform := "Epic Games"
    metacritic := some 90
    url := "https://store.epicgames.com/tr/p/" ++ slug
    header_image := epicImage g.keyImages }

/-- The Epic free-games loop (lines 93-115). -/
def epicFreeLoop : List EpicGame → List Deal → List Deal
  | [], deals => deals
  | g :: rest, deals =>
    if g.title = "" || !g.hasPromotions then epicFreeLoop rest deals
    else
      if g.promoDiscountPercentages.any (fun p => decide (p = 0)) then
        match epicSlug g with
        | some slug =>
          if slug ≠ "" ∧ slug ≠ "[]" then
            epicFreeLoop rest (deals ++ [mkEpicFreeDeal g slug])
          else epicFreeLoop rest deals
        | none => epicFreeLoop rest deals
      else epicFreeLoop rest deals

/-- One deal of the CheapShark response used for Epic sales. -/
structure CheapSharkGame where
  dealID : String
  title : String
  savings : ℚ
  salePrice : ℚ
  metacriticScore : ℤ
  steamAppID : Option String
  thumb : String
deriving DecidableEq

/-- Hex digit for percent-encoding (uppercase, as `encodeURIComponent`
produces). -/
def hexDigitChar (n : ℕ) : Char :=
  if n < 10 then Char.ofNat (48 + n) else Char.ofNat (55 + n)

/-- The UTF-8 bytes of one character, as numbers. -/
def utf8Bytes (c : Char) : List ℕ :=
  let n := c.toNat
  if n < 0x80 then [n]
  else if n < 0x800 then [0xC0 + n / 64, 0x80 + n % 64]
  else if n < 0x10000 then [0xE0 + n / 4096, 0x80 + (n / 64) % 64, 0x80 + n % 64]
  else [0xF0 + n / 262144, 0x80 + (n / 4096) % 64, 0x80 + (n / 64) % 64, 0x80 + n % 64]

/-- Characters `encodeURIComponent` leaves unescaped. -/
def isUriUnreserved (c : Char) : Bool :=
  decide (('A' ≤ c ∧ c ≤ 'Z') ∨ ('a' ≤ c ∧ c ≤ 'z') ∨ ('0' ≤ c ∧ c ≤ '9')) ||
  c = '-' || c = '_' || c = '.' || c = '!' || c = '~' || c = '*' || c = '\'' ||
  c = '(' || c = ')'

/-- Embedding of JavaScript `encodeURIComponent`. -/
def encodeURIComponent (s : String) : String :=
  String.mk (s.data.foldr
    (fun c acc =>
      if isUriUnreserved c then c :: acc
      else (utf8Bytes c).foldr
        (fun b acc2 => '%' :: hexDigitChar (b / 16) :: hexDigitChar (b % 16) :: acc2) acc)
    [])

/-- The Deal built for a kept CheapShark Epic sale (lines 136-148). -/
def mkEpicCsDeal (g : CheapSharkGame) (discount : ℤ) : Deal :=
  { id := "epic_cs_" ++ g.dealID
    name := g.title
    discount_percent := discount
    final_price := g.salePrice
    currency := "USD"
    platform := "Epic Games"
    metacritic := some g.metacriticScore
    url := "https://store.epicgames.com/tr/browse?q=" ++ encodeURIComponent g.title
    header_image :=
      match g.steamAppID with
      | some appId =>
        if appId = "" then some g.thumb
        else some ("https://cdn.akamai.steamstatic.com/steam/apps/" ++ appId
          ++ "/header.jpg")
      | none => some g.thumb }

/-- The CheapShark loop (lines 129-151): pushes into the accumulator the
free-games block already filled, skipping titles already added
(case-insensitive). -/
def epicCsLoop : List CheapSharkGame → List Deal → List Deal
  | [], deals => deals
  | g :: rest, deals =>
    let discount := jsRound g.savings
    if 50 ≤ discount then
      if deals.any (fun d => decide (lowerData d.name = lowerData g.title)) then
        epicCsLoop rest deals
      else epicCsLoop rest (deals ++ [mkEpicCsDeal g discount])
    else epicCsLoop rest deals

/-- The two upstream responses consumed by `fetchEpicDeals`. -/
structure EpicInput where
  free : HttpResult (List EpicGame)
  cheapShark : HttpResult (List CheapSharkGame)
deriving DecidableEq

/-- Embedding of `fetchEpicDeals` (lines 81-158): two sequential,
independently caught try blocks sharing one accumulator.  A failure in
either block leaves the deals pushed by the other intact. -/
def fetchEpicDeals (inp : EpicInput) : List Deal :=
  let deals1 :=
    match inp.free with
    | .netError => []
    | .parseError => []
    | .notOk => []
    | .payload games => epicFreeLoop games []
  match inp.cheapShark with
  | .netError => deals1
  | .parseError => deals1
  | .notOk => deals1
  | .payload games => epicCsLoop games deals1

/-- `MIN_GOG_REVIEWS` (route.ts line 9). -/
def MIN_GOG_REVIEWS : ℕ := 500

/-- The money object of a GOG product's price. -/
structure GogMoney where
  amount : ℚ
  currency : String
deriving DecidableEq

/-- The price object of a GOG product: the signed/string-encoded discount
plus the final money object. -/
structure GogPrice where
  discount : Option String
  finalMoney : Option GogMoney
deriving DecidableEq

/-- One product of GOG's catalog response. -/
structure GogProduct where
  id : String
  title : String
  price : Option GogPrice
  reviewsCount : ℕ
  storeLink : Option String
  slug : String
  coverHorizontal : Option String
deriving DecidableEq

/-- Embedding of JavaScript `parseInt` on an already-cleaned character list
containing only digits and minus signs: an optional leading sign followed by
the maximal digit prefix; no digits gives `NaN`, modelled as `none`. -/
def jsParseIntDigits (l : List Char) : Option ℤ :=
  match l with
  | '-' :: rest =>
    let digits := rest.takeWhile (fun c => decide ('0' ≤ c ∧ c ≤ '9'))
    if digits = [] then none
    else some (-(digits.foldl (fun n c => n * 10 + (c.toNat - 48)) 0 : ℕ))
  | _ =>
    let digits := l.takeWhile (fun c => decide ('0' ≤ c ∧ c ≤ '9'))
    if digits = [] then none
    else some ((digits.foldl (fun n c => n * 10 + (c.toNat - 48)) 0 : ℕ))

/-- The GOG discount normalization (lines 173-174):
`Math.abs(parseInt(discountStr.replace(/[^0-9-]/g, '')) || 0)`. -/
def gogDiscountOf (p : GogProduct) : ℕ :=
  let discountStr := (jsOrS (p.price.bind (·.discount)) (some "0")).getD "0"
  let cleaned := discountStr.data.filter
    (fun c => decide (('0' ≤ c ∧ c ≤ '9') ∨ c = '-'))
  ((jsParseIntDigits cleaned).getD 0).natAbs

/-- The Deal built for a kept GOG product (lines 178-187). -/
def mkGogDeal (g : GogProduct) (discount : ℕ) : Deal :=
  { id := "gog_" ++ g.id
    name := g.title
    discount_percent := (discount : ℤ)
    final_price := ((g.price.bind (·.finalMoney)).map (·.amount)).getD 0
    currency := (jsOrS ((g.price.bind (·.finalMoney)).map (·.currency)) (some "USD")).getD "USD"
    platform := "GOG"
    url := (jsOrS g.storeLink (some ("https://www.gog.com/en/game/" ++ g.slug))).getD ""
    header_image := g.coverHorizontal }

/-- The GOG product loop (lines 172-189). -/
def gogLoop : List GogProduct → List Deal → List Deal
  | [], deals => deals
  | g :: rest, deals =>
    let discount := gogDiscountOf g
    if 25 ≤ discount && MIN_GOG_REVIEWS ≤ g.reviewsCount then
      gogLoop rest (deals ++ [mkGogDeal g discount])
    else gogLoop rest deals

/-- Embedding of `fetchGOGDeals` (lines 161-196): one try/catch over an
empty accumulator, so every failure mode yields the empty list. -/
def fetchGOGDeals : HttpResult (List GogProduct) → List Deal
  | .netError => []
  | .parseError => []
  | .notOk => []
  | .payload products => gogLoop products []

/-! ### Spec-side formulation of the normalizer: words and their join -/

/-- The maximal non-whitespace runs (words) of a character list, in order.
This is the spec-side notion of content "up to whitespace runs and boundary
whitespace". -/
def wordsOf : List Char → List (List Char)
  | [] => []
  | [c] => if jsWhitespace c then [] else [[c]]
  | c :: d :: rest =>
    if jsWhitespace c then wordsOf (d :: rest)
    else
      match wordsOf (d :: rest) with
      | [] => [[c]]
      | w :: ws =>
        if jsWhitespace d then [c] :: w :: ws
        else (c :: w) :: ws

/-- Join words with single spaces. -/
def joinWords : List (List Char) → List Char
  | [] => []
  | [w] => w
  | w :: ws => w ++ ' ' :: joinWords ws

/-- The lowered, stripped character sequence of a title: what remains after
`toLowerCase` and the `[^a-z0-9\s]` strip, before whitespace collapsing. -/
def strippedLower (s : String) : List Char :=
  (jsToLowerString s.data).filter keepChar

/-! ### Event classifiers and concrete scenario inputs used below -/

/-- Events that consumed one unit of the attempt budget. -/
def Event.isAttempt : Event → Bool
  | .imageNotOk _ => true
  | .attemptErrored _ => true
  | .rateLimitHit _ => true
  | .tweetPosted _ => true
  | _ => false

/-- Attempts that ended in a caught non-429 error (a transient publish
failure or an image-fetch rejection). -/
def Event.isErrored : Event → Bool
  | .attemptErrored _ => true
  | _ => false

/-- Attempts whose image fetch returned a non-2xx status. -/
def Event.isImageFail : Event → Bool
  | .imageNotOk _ => true
  | _ => false

/-- A history record used by the boundary witnesses. -/
def recBoundary : PostRecord :=
  { app_id := 1, game_title := "alpha one", price_usd := 0, created_at := 5 }

/-- An environment whose history holds `recBoundary`, used by the loop-step
witness. -/
def envBoundary : RunEnv :=
  { history := [recBoundary], now := 10, image := fun _ => .ok,
    publish := fun _ => .success }

/-- A candidate whose normalized title matches `recBoundary`. -/
def dealAlphaOne : Deal :=
  { id := "101", name := "Alpha One", discount_percent := 60, final_price := 10,
    currency := "USD", platform := "Steam", url := "u1", header_image := some "i1" }

/-- A deal whose title holds no ASCII alphanumerics. -/
def dealPunct1 : Deal :=
  { id := "201", name := "!?!", discount_percent := 50, final_price := 5,
    currency := "USD", platform := "Steam", url := "u", header_image := some "i" }

/-- A second, unrelated deal whose title also holds no ASCII alphanumerics. -/
def dealPunct2 : Deal :=
  { id := "202", name := "***  ~~~", discount_percent := 40, final_price := 3,
    currency := "USD", platform := "GOG", url := "v", header_image := some "j" }

/-- An environment whose publish capability always answers 429. -/
def envRateLimited : RunEnv :=
  { history := [], now := 0, image := fun _ => .ok, publish := fun _ => .rateLimited }

/-- A second eligible candidate. -/
def dealBetaTwo : Deal :=
  { id := "102", name := "Beta Two", discount_percent := 50, final_price := 5,
    currency := "USD", platform := "GOG", url := "u2", header_image := some "i2" }

/-- A third eligible candidate. -/
def dealGammaThree : Deal :=
  { id := "103", name := "Gamma Three", discount_percent := 40, final_price := 7,
    currency := "USD", platform := "Steam", url := "u3", header_image := some "i3" }

/-- An environment whose publish capability always fails transiently. -/
def envTransient : RunEnv :=
  { history := [], now := 0, image := fun _ => .ok, publish := fun _ => .transientError }

/-- A fourth eligible candidate, the only one whose image fetch succeeds in
the C5 counterexample environment. -/
def dealDeltaFour : Deal :=
  { id := "104", name := "Delta Four", discount_percent := 30, final_price := 3,
    currency := "USD", platform := "Steam", url := "u4", header_image := some "i4" }

/-- An environment where only `dealDeltaFour`'s image fetch succeeds and
publishing always succeeds. -/
def envImageFail : RunEnv :=
  { history := [], now := 0,
    image := fun u => if u = "i4" then .ok else .notOk,
    publish := fun _ => .success }

/-- An environment whose single candidate's image fetch fails. -/
def envImageFailOne : RunEnv :=
  { history := [], now := 0, image := fun _ => .notOk, publish := fun _ => .success }

/-- A CheapShark deal kept by the Epic sales block. -/
def csHades : CheapSharkGame :=
  { dealID := "d1", title := "Hades", savings := 60, salePrice := mkRat 999 100,
    metacriticScore := 93, steamAppID := some "1145360", thumb := "t" }

/-- The first-run environment of the two-run scenario. -/
def envRun1 : RunEnv :=
  { history := [], now := 1000000, image := fun _ => .ok, publish := fun _ => .success }

/-- The two unchanged upstream deals of the two-run scenario. -/
def dealsTwo : List Deal := [dealAlphaOne, dealBetaTwo]

/-- The record the first run writes. -/
def recAlpha : PostRecord := mkRecord envRun1 dealAlphaOne

/-- The second-run environment: one minute later, history successfully
updated with the first run's record. -/
def envRun2 : RunEnv :=
  { history := (runPipeline envRun1 dealsTwo).inserted, now := 1060000,
    image := fun _ => .ok, publish := fun _ => .success }

/-! ### Lemmas about the association-list model of the JS Map -/

theorem alookup_aset_self (k : String) (v : Deal) (m : List (String × Deal)) :
    alookup k (aset k v m) = some v := by
  induction m with
  | nil => simp [aset, alookup]
  | cons p m ih =>
    obtain ⟨k', w⟩ := p
    by_cases h : k' = k
    · simp [aset, alookup, h]
    · simp [aset, alookup, h, ih]

theorem alookup_aset_ne (k key : String) (v : Deal) (m : List (String × Deal))
    (h : k ≠ key) : alookup key (aset k v m) = alookup key m := by
  induction m with
  | nil => simp [aset, alookup, h]
  | cons p m ih =>
    obtain ⟨k', w⟩ := p
    by_cases hk : k' = k
    · subst hk
      simp [aset, alookup, h]
    · simp [aset, alookup, hk, ih]

theorem alookup_eq_none_iff (key : String) (m : List (String × Deal)) :
    alookup key m = none ↔ key ∉ m.map Prod.fst := by
  induction m with
  | nil => simp [alookup]
  | cons p m ih =>
    obtain ⟨k', w⟩ := p
    by_cases h : k' = key
    · simp [alookup, h]
    · simp [alookup, h, ih, Ne.symm h]

theorem map_fst_aset_of_mem (k : String) (v : Deal) (m : List (String × Deal))
    (h : k ∈ m.map Prod.fst) : (aset k v m).map Prod.fst = m.map Prod.fst := by
  induction m with
  | nil => simp at h
  | cons p m ih =>
    obtain ⟨k', w⟩ := p
    by_cases hk : k' = k
    · simp [aset, hk]
    · simp only [List.map_cons, List.mem_cons] at h
      rcases h with h | h
    
      · exact absurd h.symm hk
      · simp [aset, hk, ih h]

theorem map_fst_aset_of_not_mem (k : String) (v : Deal) (m : List (String × Deal))
    (h : k ∉ m.map Prod.fst) : (aset k v m).map Prod.fst = m.map Prod.fst ++ [k] := by
  induction m with
  | nil => simp [aset]
  | cons p m ih =>
    obtain ⟨k', w⟩ := p
    simp only [List.map_cons, List.mem_cons] at h
    push_neg at h
    simp [aset, Ne.symm h.1, ih h.2]

theorem nodup_map_fst_aset (k : String) (v : Deal) (m : List (String × Deal))
    (h : (m.map Prod.fst).Nodup) : ((aset k v m).map Prod.fst).Nodup := by
  by_cases hm : k ∈ m.map Prod.fst
  · rw [map_fst_aset_of_mem k v m hm]
    exact h
  · rw [map_fst_aset_of_not_mem k v m hm]
    simp [List.nodup_append, h, List.disjoint_singleton, hm]

theorem dedupStep_eq (m : List (String × Deal)) (deal : Deal) :
    dedupStep m deal =
      match alookup (normalizeGameName deal.name) m with
      | none => aset (normalizeGameName deal.name) deal m
      | some existing =>
        if beatsIncumbent deal existing then aset (normalizeGameName deal.name) deal m
        else m := rfl

theorem nodup_map_fst_dedupStep (m : List (String × Deal)) (deal : Deal)
    (h : (m.map Prod.fst).Nodup) : ((dedupStep m deal).map Prod.fst).Nodup := by
  rw [dedupStep_eq]
  cases halo : alookup (normalizeGameName deal.name) m with
  | none => exact nodup_map_fst_aset _ _ _ h
  | some existing =>
    by_cases hb : beatsIncumbent deal existing
    · simp only [hb, if_true]
      exact nodup_map_fst_aset _ _ _ h
    · simp only [hb, if_false]
      exact h

theorem nodup_map_fst_foldl_dedupStep (ds : List Deal) :
    ∀ m : List (String × Deal), (m.map Prod.fst).Nodup →
      ((ds.foldl dedupStep m).map Prod.fst).Nodup := by
  induction ds with
  | nil => intro m h; simpa using h
  | cons d ds ih =>
    intro m h
    exact ih (dedupStep m d) (nodup_map_fst_dedupStep m d h)

theorem alookup_foldl_dedupStep (key : String) (ds : List Deal) :
    ∀ m : List (String × Deal),
      alookup key (ds.foldl dedupStep m) =
        match alookup key m with
        | none =>
          survivorFold (ds.filter (fun d => decide (normalizeGameName d.name = key)))
        | some e =>
          some ((ds.filter (fun d => decide (normalizeGameName d.name = key))).foldl
            keepOrReplace e) := by
  induction ds with
  | nil =>
    intro m
    cases h : alookup key m <;> simp [h, survivorFold]
  | cons d ds ih =>
    intro m
    by_cases hk : normalizeGameName d.name = key
    · subst hk
      cases h : alookup (normalizeGameName d.name) m with
      | none =>
        have hstep : ds.foldl dedupStep (dedupStep m d) =
            ds.foldl dedupStep (aset (normalizeGameName d.name) d m) := by
          rw [dedupStep_eq, h]
        simp only [List.foldl_cons, hstep, ih, alookup_aset_self]
        simp [survivorFold]
      | some e =>
        by_cases hb : beatsIncumbent d e
        · have hstep : ds.foldl dedupStep (dedupStep m d) =
              ds.foldl dedupStep (aset (normalizeGameName d.name) d m) := by
            simp [dedupStep, h, hb]
          simp only [List.foldl_cons, hstep, ih, alookup_aset_self]
          simp [h, keepOrReplace, hb]
        · have hstep : ds.foldl dedupStep (dedupStep m d) = ds.foldl dedupStep m := by
            simp [dedupStep, h, hb]
          simp only [List.foldl_cons, hstep, ih]
          simp [h, keepOrReplace, hb]
    · have hlook : alookup key (dedupStep m d) = alookup key m := by
        rw [dedupStep_eq]
        cases h : alookup (normalizeGameName d.name) m with
        | none => exact alookup_aset_ne _ _ _ _ hk
        | some e =>
          by_cases hb : beatsIncumbent d e
          · simp only [hb, if_true]
            exact alookup_aset_ne _ _ _ _ hk
          · simp [hb]
      simp only [List.foldl_cons, ih, hlook]
      simp [hk]

/-! ### Claim C1: the deduplication fold -/

/-- C1: for every input sequence of deals, the deduplicator retains exactly
one deal per normalized match key (the map's keys are pairwise distinct),
and the deal retained at each key is exactly the fold of the survivor rule
(keep the incumbent unless the new deal has strictly higher discount, or
equal discount and strictly lower price) over the subsequence of input
deals with that key, so that for equal discount and equal-or-higher price
the first-seen deal wins. -/
theorem dedup_retains_fold_survivor (deals : List Deal) :
    ((bestDeals deals).map Prod.fst).Nodup ∧
    ∀ key, alookup key (bestDeals deals) =
      survivorFold (deals.filter (fun d => decide (normalizeGameName d.name = key))) := by
  constructor
  · exact nodup_map_fst_foldl_dedupStep deals [] (by simp)
  · intro key
    have h := alookup_foldl_dedupStep key deals []
    simpa [bestDeals, alookup] using h

/-! ### Claim C6: the adaptive repost window -/

/-- C6: the repost window is a monotone non-decreasing function of the
unique-deal pool size, with the table pool ≥ 50 → 120 h, 30 ≤ pool < 50 →
72 h, pool < 30 → 48 h, and in particular pool sizes 10, 35, 60 give 48 h,
72 h, 120 h. -/
theorem repost_window_monotone_table :
    (∀ m n : ℕ, m ≤ n → repostHoursFor m ≤ repostHoursFor n) ∧
    (∀ n : ℕ, (50 ≤ n → repostHoursFor n = 120) ∧
      (30 ≤ n ∧ n < 50 → repostHoursFor n = 72) ∧
      (n < 30 → repostHoursFor n = 48)) ∧
    repostHoursFor 10 = 48 ∧ repostHoursFor 35 = 72 ∧ repostHoursFor 60 = 120 := by
  refine ⟨?_, ?_, by decide, by decide, by decide⟩
  · intro m n h
    unfold repostHoursFor
    split_ifs <;> omega
  · intro n
    refine ⟨?_, ?_, ?_⟩ <;> intro h <;> unfold repostHoursFor <;> split_ifs <;> omega

/-- Witness for C6 at concrete pool sizes. -/
theorem repost_window_monotone_table_witness :
    repostHoursFor 10 ≤ repostHoursFor 35 ∧ repostHoursFor 60 = 120 :=
  ⟨repost_window_monotone_table.1 10 35 (by decide),
   (repost_window_monotone_table.2.1 60).1 (by decide)⟩

/-! ### Claim C7: strict repost-window boundary -/

/-- C7: a candidate is excluded exactly when history holds a record whose
title matches its normalized key case-insensitively with
`created_at` strictly greater than the cutoff `now - repost window`; a
record exactly at the cutoff does not exclude it, and an excluded candidate
is skipped by the loop at any position and any attempt count. -/
theorem repost_exclusion_strict_boundary :
    (∀ (history : List PostRecord) (title : String) (cutoff : ℤ),
      skipCheck history title cutoff = true ↔
        ∃ r ∈ history, ilikeEq r.game_title title = true ∧ cutoff < r.created_at) ∧
    (∀ (r : PostRecord) (title : String) (cutoff : ℤ),
      r.created_at = cutoff → skipCheck [r] title cutoff = false) ∧
    (∀ (env : RunEnv) (cutoff : ℤ) (g : Deal) (rest : List Deal) (a d : ℕ),
      a < MAX_TWEET_ATTEMPTS →
      skipCheck env.history (normalizeGameName g.name) cutoff = true →
      runLoop env cutoff (g :: rest) a d =
        prependEvent (.skipPosted g) (runLoop env cutoff rest a d)) := by
  refine ⟨?_, ?_, ?_⟩
  · intro history title cutoff
    constructor
    · intro h
      by_contra hne
      push_neg at hne
      have : (history.filter
          (fun r => ilikeEq r.game_title title && decide (cutoff < r.created_at))) = [] := by
        rw [List.filter_eq_nil_iff]
        intro r hr
        simp only [Bool.and_eq_true, decide_eq_true_eq, not_and]
        intro hil hlt
        exact absurd hlt (by simpa using (hne r hr) hil)
      simp [skipCheck, this] at h
    · intro ⟨r, hr, hil, hlt⟩
      have : r ∈ history.filter
          (fun r => ilikeEq r.game_title title && decide (cutoff < r.created_at)) := by
        rw [List.mem_filter]
        exact ⟨hr, by simp [hil, hlt]⟩
      rcases hfe : history.filter
          (fun r => ilikeEq r.game_title title && decide (cutoff < r.created_at)) with _ | ⟨x, xs⟩
      · rw [hfe] at this
        simp at this
      · simp [skipCheck, hfe]
  · intro r title cutoff h
    simp [skipCheck, h]
  · intro env cutoff g rest a d ha hskip
    have h1 : ¬ (MAX_TWEET_ATTEMPTS ≤ a) := Nat.not_le.mpr ha
    simp [runLoop, h1, hskip]

/-- Witness for C7: with a matching record timestamped 5, cutoff 3 excludes
the candidate and the loop skips it, while cutoff exactly 5 does not
exclude it. -/
theorem repost_exclusion_strict_boundary_witness :
    skipCheck [recBoundary] (normalizeGameName dealAlphaOne.name) 3 = true ∧
    skipCheck [recBoundary] "alpha one" 5 = false ∧
    runLoop envBoundary 3 [dealAlphaOne] 0 0 =
      prependEvent (.skipPosted dealAlphaOne) (runLoop envBoundary 3 [] 0 0) :=
  ⟨(repost_exclusion_strict_boundary.1 [recBoundary]
      (normalizeGameName dealAlphaOne.name) 3).mpr (by decide),
   repost_exclusion_strict_boundary.2.1 recBoundary "alpha one" 5 (by decide),
   repost_exclusion_strict_boundary.2.2 envBoundary 3 dealAlphaOne [] 0 0 (by decide)
     (by decide)⟩

/-! ### Lemmas about trimming and collapsing whitespace -/

theorem dropWhile_eq_self_of_head_not (p : Char → Bool) :
    ∀ l : List Char, (l = [] ∨ ∃ c t, l = c :: t ∧ p c = false) → l.dropWhile p = l := by
  intro l h
  rcases h with rfl | ⟨c, t, rfl, hc⟩
  · rfl
  · simp [List.dropWhile_cons, hc]

theorem rtrimWs_nil : rtrimWs [] = [] := rfl

theorem rtrimWs_cons_not_ws (c : Char) (l : List Char) (hc : jsWhitespace c = false) :
    rtrimWs (c :: l) = c :: rtrimWs l := by
  unfold rtrimWs
  rw [show (c :: l).reverse = l.reverse ++ [c] by simp, List.dropWhile_append]
  by_cases h : (l.reverse.dropWhile jsWhitespace).isEmpty
  · rw [if_pos h]
    rw [List.isEmpty_iff] at h
    simp [List.dropWhile_cons, hc, h]
  · rw [if_neg h]
    simp

theorem rtrimWs_cons_ws (c : Char) (l : List Char) (hc : jsWhitespace c = true) :
    rtrimWs (c :: l) = if rtrimWs l = [] then [] else c :: rtrimWs l := by
  unfold rtrimWs
  rw [show (c :: l).reverse = l.reverse ++ [c] by simp, List.dropWhile_append]
  by_cases h : (l.reverse.dropWhile jsWhitespace).isEmpty
  · rw [if_pos h]
    rw [List.isEmpty_iff] at h
    simp [List.dropWhile_cons, hc, h]
  · rw [if_neg h]
    rw [List.isEmpty_iff] at h
    simp [h]

theorem trimWs_cons_ws (c : Char) (l : List Char) (hc : jsWhitespace c = true) :
    trimWs (c :: l) = trimWs l := by
  unfold trimWs
  rw [List.dropWhile_cons, if_pos hc]

theorem trimWs_cons_not_ws (c : Char) (l : List Char) (hc : jsWhitespace c = false) :
    trimWs (c :: l) = c :: rtrimWs l := by
  unfold trimWs
  rw [List.dropWhile_cons, if_neg (by simp [hc]), rtrimWs_cons_not_ws c l hc]

theorem trimWs_eq_rtrimWs_of_head_not_ws (l : List Char)
    (h : l = [] ∨ ∃ c t, l = c :: t ∧ jsWhitespace c = false) :
    trimWs l = rtrimWs l := by
  unfold trimWs
  rw [dropWhile_eq_self_of_head_not jsWhitespace l h]

/-- The output of `collapseAux true` never starts with a whitespace
character: the run in progress swallows leading whitespace. -/
theorem collapseAux_true_head_not_ws :
    ∀ l : List Char, collapseAux true l = [] ∨
      ∃ c t, collapseAux true l = c :: t ∧ jsWhitespace c = false := by
  intro l
  induction l with
  | nil => left; rfl
  | cons c rest ih =>
    by_cases hc : jsWhitespace c
    · simpa [collapseAux, hc] using ih
    · right
      exact ⟨c, collapseAux false rest, by simp [collapseAux, hc], by simp [hc]⟩

/-! ### Lemmas about the spec-side word decomposition -/

theorem wordsOf_ws_cons (c : Char) (rest : List Char) (hc : jsWhitespace c = true) :
    wordsOf (c :: rest) = wordsOf rest := by
  cases rest with
  | nil => simp [wordsOf, hc]
  | cons d r => simp [wordsOf, hc]

theorem wordsOf_mem_ne_nil : ∀ l : List Char, ∀ w ∈ wordsOf l, w ≠ [] := by
  intro l
  induction l with
  | nil => simp [wordsOf]
  | cons c rest ih =>
    cases rest with
    | nil =>
      by_cases hc : jsWhitespace c <;> simp [wordsOf, hc]
    | cons d r =>
      by_cases hc : jsWhitespace c
      · rw [wordsOf_ws_cons c (d :: r) hc]
        exact ih
      · intro w hw
        have hunf : wordsOf (c :: d :: r) =
            match wordsOf (d :: r) with
            | [] => [[c]]
            | w :: ws => if jsWhitespace d then [c] :: w :: ws else (c :: w) :: ws := by
          simp [wordsOf, hc]
        rw [hunf] at hw
        cases hW : wordsOf (d :: r) with
        | nil =>
          rw [hW] at hw
          simp at hw
          simp [hw]
        | cons w2 ws2 =>
          rw [hW] at hw
          have hw2 : w ∈ (if jsWhitespace d = true then [c] :: w2 :: ws2
              else (c :: w2) :: ws2) := hw
          by_cases hd : jsWhitespace d
          · rw [if_pos hd] at hw2
            rcases List.mem_cons.mp hw2 with h1 | h2
            · simp [h1]
            · exact ih w (by rw [hW]; exact h2)
          · rw [if_neg hd] at hw2
            rcases List.mem_cons.mp hw2 with h1 | h2
            · simp [h1]
            · exact ih w (by rw [hW]; exact List.mem_cons_of_mem w2 h2)

theorem wordsOf_not_ws_cons_shape :
    ∀ (rest : List Char) (c : Char), jsWhitespace c = false →
      ∃ w ws, wordsOf (c :: rest) = (c :: w) :: ws := by
  intro rest
  induction rest with
  | nil =>
    intro c hc
    exact ⟨[], [], by simp [wordsOf, hc]⟩
  | cons d r ih =>
    intro c hc
    by_cases hd : jsWhitespace d
    · rcases hW : wordsOf (d :: r) with _ | ⟨w2, ws2⟩
      · exact ⟨[], [], by simp [wordsOf, hc, hW]⟩
      · exact ⟨[], w2 :: ws2, by simp [wordsOf, hc, hW, hd]⟩
    · obtain ⟨w, ws, hW⟩ := ih d (by simpa using hd)
      exact ⟨d :: w, ws, by simp [wordsOf, hc, hW, hd]⟩

theorem joinWords_cons_cons (w : List Char) (x : List Char) (xs : List (List Char)) :
    joinWords (w :: x :: xs) = w ++ ' ' :: joinWords (x :: xs) := rfl

theorem joinWords_prepend_char (c : Char) (w : List Char) (ws : List (List Char)) :
    joinWords ((c :: w) :: ws) = c :: joinWords (w :: ws) := by
  cases ws with
  | nil => rfl
  | cons x xs => simp [joinWords_cons_cons]

theorem joinWords_ne_nil (w : List Char) (ws : List (List Char)) (hw : w ≠ []) :
    joinWords (w :: ws) ≠ [] := by
  cases ws with
  | nil => simpa [joinWords]
  | cons x xs => simp [joinWords_cons_cons]

/-- Collapsing whitespace runs and trimming computes exactly the
single-space join of the maximal non-whitespace words, from either
collapse state. -/
theorem trim_collapse_eq_joinWords_both :
    ∀ l : List Char,
      trimWs (collapseAux false l) = joinWords (wordsOf l) ∧
      trimWs (collapseAux true l) = joinWords (wordsOf l) := by
  intro l
  induction l with
  | nil => exact ⟨rfl, rfl⟩
  | cons c rest ih =>
    by_cases hc : jsWhitespace c
    · have hW : wordsOf (c :: rest) = wordsOf rest := wordsOf_ws_cons c rest hc
      constructor
      · have hcol : collapseAux false (c :: rest) = ' ' :: collapseAux true rest := by
          simp [collapseAux, hc]
        rw [hcol, trimWs_cons_ws ' ' _ (by decide), hW]
        exact ih.2
      · have hcol : collapseAux true (c :: rest) = collapseAux true rest := by
          simp [collapseAux, hc]
        rw [hcol, hW]
        exact ih.2
    · have hcb : jsWhitespace c = false := by simpa using hc
      have hcolF : collapseAux false (c :: rest) = c :: collapseAux false rest := by
        simp [collapseAux, hc]
      have hcolT : collapseAux true (c :: rest) = c :: collapseAux false rest := by
        simp [collapseAux, hc]
      have hmain : trimWs (c :: collapseAux false rest) = joinWords (wordsOf (c :: rest)) := by
        rw [trimWs_cons_not_ws c _ hcb]
        cases rest with
        | nil =>
          simp [collapseAux, rtrimWs_nil, wordsOf, hcb, joinWords]
        | cons d r =>
          by_cases hd : jsWhitespace d
          · -- the collapse of `d :: r` starts a whitespace run
            have hY : collapseAux false (d :: r) = ' ' :: collapseAux true r := by
              simp [collapseAux, hd]
            have hYhead := collapseAux_true_head_not_ws r
            have hdw : (collapseAux true r).dropWhile jsWhitespace = collapseAux true r :=
              dropWhile_eq_self_of_head_not jsWhitespace _ hYhead
            have hrt : rtrimWs (collapseAux true r) = joinWords (wordsOf (d :: r)) := by
              have h2 := ih.2
              have hcolT2 : collapseAux true (d :: r) = collapseAux true r := by
                simp [collapseAux, hd]
              rw [hcolT2] at h2
              rw [← h2]
              unfold trimWs
              rw [hdw]
            have hWspec : wordsOf (c :: d :: r) =
                match wordsOf (d :: r) with
                | [] => [[c]]
                | w :: ws => [c] :: w :: ws := by
              rcases hW : wordsOf (d :: r) with _ | ⟨w2, ws2⟩
              · simp [wordsOf, hc, hW]
              · simp [wordsOf, hc, hW, hd]
            rw [hY, rtrimWs_cons_ws ' ' _ (by decide)]
            rcases hW : wordsOf (d :: r) with _ | ⟨w2, ws2⟩
            · have hrt0 : rtrimWs (collapseAux true r) = [] := by
                rw [hrt, hW]
                rfl
              rw [hrt0, if_pos rfl, hWspec, hW]
              rfl
            · have hne : rtrimWs (collapseAux true r) ≠ [] := by
                rw [hrt, hW]
                exact joinWords_ne_nil w2 ws2
                  (wordsOf_mem_ne_nil (d :: r) w2 (by rw [hW]; exact List.mem_cons_self w2 ws2))
              rw [if_neg hne, hrt, hW, hWspec, hW]
              rfl
          · -- `d` continues the word that `c` starts
            have hdb : jsWhitespace d = false := by simpa using hd
            have hX : collapseAux false (d :: r) = d :: collapseAux false r := by
              simp [collapseAux, hd]
            have hrt : rtrimWs (collapseAux false (d :: r)) = joinWords (wordsOf (d :: r)) := by
              have h1 := ih.1
              rw [← h1]
              unfold trimWs
              rw [dropWhile_eq_self_of_head_not jsWhitespace _
                (Or.inr ⟨d, collapseAux false r, hX, hdb⟩)]
            obtain ⟨w, ws, hW⟩ := wordsOf_not_ws_cons_shape r d hdb
            have hWspec : wordsOf (c :: d :: r) = (c :: d :: w) :: ws := by
              simp [wordsOf, hc, hW, hd]
            rw [hrt, hW, hWspec, joinWords_prepend_char c (d :: w) ws]
      exact ⟨by rw [hcolF]; exact hmain, by rw [hcolT]; exact hmain⟩

/-! ### Claim C8: the match key as a function of the title -/

/-- C8: the match key is a pure function of the title computed by
lowercasing, stripping non-alphanumerics and collapsing whitespace runs: it
equals the single-space join of the maximal words of the lowered, stripped
title, so any two titles with the same lowered-stripped word sequence (in
particular titles differing only in case, punctuation or whitespace runs)
get the same key; the claim's example pair collapses to the same key. -/
theorem match_key_words_of_title :
    (∀ t : String,
      normalizeGameName t = String.mk (joinWords (wordsOf (strippedLower t)))) ∧
    (∀ t u : String, wordsOf (strippedLower t) = wordsOf (strippedLower u) →
      normalizeGameName t = normalizeGameName u) ∧
    normalizeGameName "Game: Special Edition!" = normalizeGameName "game special edition" ∧
    normalizeGameName "game special edition" = "game special edition" := by
  have h1 : ∀ t : String,
      normalizeGameName t = String.mk (joinWords (wordsOf (strippedLower t))) := by
    intro t
    unfold normalizeGameName
    exact congrArg String.mk (trim_collapse_eq_joinWords_both (strippedLower t)).1
  refine ⟨h1, ?_, by decide, by decide⟩
  intro t u h
  rw [h1 t, h1 u, h]

/-- Witness for C8: two titles differing in case, punctuation and a
whitespace run have equal word sequences, hence equal keys. -/
theorem match_key_words_of_title_witness :
    wordsOf (strippedLower "Foo:  BAR") = wordsOf (strippedLower "foo bar!") ∧
    normalizeGameName "Foo:  BAR" = normalizeGameName "foo bar!" :=
  ⟨by decide, match_key_words_of_title.2.1 "Foo:  BAR" "foo bar!" (by decide)⟩

/-! ### Claim C10: titles without ASCII alphanumerics share the empty key -/

theorem wordsOf_all_ws :
    ∀ l : List Char, (∀ c ∈ l, jsWhitespace c = true) → wordsOf l = [] := by
  intro l
  induction l with
  | nil => intro _; rfl
  | cons c rest ih =>
    intro h
    rw [wordsOf_ws_cons c rest (h c (List.mem_cons_self c rest))]
    exact ih (fun x hx => h x (List.mem_cons_of_mem c hx))

theorem length_filter_fst_le_one_of_nodup (x : String) :
    ∀ l : List (String × Deal), (l.map Prod.fst).Nodup →
      (l.filter (fun p => decide (p.1 = x))).length ≤ 1 := by
  intro l
  induction l with
  | nil => intro _; simp
  | cons p t ih =>
    intro h
    simp only [List.map_cons, List.nodup_cons] at h
    by_cases hx : p.1 = x
    · have ht : t.filter (fun p => decide (p.1 = x)) = [] := by
        rw [List.filter_eq_nil_iff]
        intro q hq
        simp only [decide_eq_true_eq]
        intro hq1
        exact h.1 (hx ▸ hq1 ▸ List.mem_map_of_mem Prod.fst hq)
      simp [List.filter_cons, hx, ht]
    · simpa [List.filter_cons, hx] using ih h.2

/-- Counterexample for C10: the one-character title U+212A (KELVIN SIGN)
contains no ASCII letter or digit, yet JavaScript `toLowerCase` maps it to
the ASCII letter `k`, so the normalizer produces the key `"k"`, not the
empty string; likewise U+0130 (Turkish dotted capital I) produces `"i"`. -/
theorem no_ascii_alnum_title_empty_key_counterexample :
    (∀ c ∈ ("\u212A" : String).data,
      ¬(('A' ≤ c ∧ c ≤ 'Z') ∨ ('a' ≤ c ∧ c ≤ 'z') ∨ ('0' ≤ c ∧ c ≤ '9'))) ∧
    normalizeGameName "\u212A" = "k" ∧
    (∀ c ∈ ("\u0130" : String).data,
      ¬(('A' ≤ c ∧ c ≤ 'Z') ∨ ('a' ≤ c ∧ c ≤ 'z') ∨ ('0' ≤ c ∧ c ≤ '9'))) ∧
    normalizeGameName "\u0130" = "i" := by
  refine ⟨by decide, by decide, by decide, by decide⟩

/-- C10 (amended): a title whose JavaScript-lowercased form contains no
ASCII letter or digit normalizes to the empty string — punctuation-only
titles and titles in scripts with no case mapping into ASCII qualify, but
not titles holding U+212A or U+0130, whose lowercase forms contain an ASCII
letter.  Consequently all such deals share the single match key `""` and
the deduplicator keeps at most one of them, merging unrelated games into
one candidate. -/
theorem lowered_no_alnum_title_empty_key :
    (∀ t : String,
      (∀ c ∈ jsToLowerString t.data, isLowerAlnum c = false) →
      normalizeGameName t = "") ∧
    (∀ deals : List Deal,
      ((bestDeals deals).filter (fun p => decide (p.1 = ""))).length ≤ 1) := by
  constructor
  · intro t ht
    have hws : ∀ c ∈ strippedLower t, jsWhitespace c = true := by
      intro c hc
      unfold strippedLower at hc
      rw [List.mem_filter] at hc
      obtain ⟨hmem, hkeep⟩ := hc
      unfold keepChar at hkeep
      rw [ht c hmem] at hkeep
      simpa using hkeep
    have hkey : normalizeGameName t =
        String.mk (joinWords (wordsOf (strippedLower t))) := by
      unfold normalizeGameName
      exact congrArg String.mk (trim_collapse_eq_joinWords_both (strippedLower t)).1
    rw [hkey, wordsOf_all_ws (strippedLower t) hws]
    rfl
  · intro deals
    exact length_filter_fst_le_one_of_nodup "" (bestDeals deals)
      (nodup_map_fst_foldl_dedupStep deals [] (by simp))

/-- Witness for C10 (amended): a punctuation-only title maps to the empty
key, and the dedup map of two such deals holds at most one entry under
`""`. -/
theorem lowered_no_alnum_title_empty_key_witness :
    normalizeGameName "!?! ***" = "" ∧
    ((bestDeals [dealPunct1, dealPunct2]).filter
      (fun p => decide (p.1 = ""))).length ≤ 1 :=
  ⟨lowered_no_alnum_title_empty_key.1 "!?! ***" (by decide),
   lowered_no_alnum_title_empty_key.2 [dealPunct1, dealPunct2]⟩

/-! ### Branch equations of the selector loop -/

theorem runLoop_nil (env : RunEnv) (cutoff : ℤ) (a d : ℕ) :
    runLoop env cutoff [] a d = ⟨.noneEligible, [], a, d, []⟩ := rfl

theorem runLoop_budget (env : RunEnv) (cutoff : ℤ) (g : Deal) (rest : List Deal)
    (a d : ℕ) (h : MAX_TWEET_ATTEMPTS ≤ a) :
    runLoop env cutoff (g :: rest) a d = ⟨.noneEligible, [], a, d, [.budgetStop]⟩ := by
  simp [runLoop, h]

theorem runLoop_skipPosted (env : RunEnv) (cutoff : ℤ) (g : Deal) (rest : List Deal)
    (a d : ℕ) (h1 : ¬ MAX_TWEET_ATTEMPTS ≤ a)
    (h2 : skipCheck env.history (normalizeGameName g.name) cutoff = true) :
    runLoop env cutoff (g :: rest) a d =
      prependEvent (.skipPosted g) (runLoop env cutoff rest a d) := by
  simp [runLoop, h1, h2]

theorem runLoop_skipNoImage (env : RunEnv) (cutoff : ℤ) (g : Deal) (rest : List Deal)
    (a d : ℕ) (h1 : ¬ MAX_TWEET_ATTEMPTS ≤ a)
    (h2 : skipCheck env.history (normalizeGameName g.name) cutoff = false)
    (h3 : g.header_image = none) :
    runLoop env cutoff (g :: rest) a d =
      prependEvent (.skipNoImage g) (runLoop env cutoff rest a d) := by
  simp [runLoop, h1, h2, h3]

theorem runLoop_skipBlacklist (env : RunEnv) (cutoff : ℤ) (g : Deal) (rest : List Deal)
    (a d : ℕ) (img : String) (h1 : ¬ MAX_TWEET_ATTEMPTS ≤ a)
    (h2 : skipCheck env.history (normalizeGameName g.name) cutoff = false)
    (h3 : g.header_image = some img) (h4 : isBlacklisted g.name = true) :
    runLoop env cutoff (g :: rest) a d =
      prependEvent (.skipBlacklist g) (runLoop env cutoff rest a d) := by
  simp [runLoop, h1, h2, h3, h4]

theorem runLoop_imageNotOk (env : RunEnv) (cutoff : ℤ) (g : Deal) (rest : List Deal)
    (a d : ℕ) (img : String) (h1 : ¬ MAX_TWEET_ATTEMPTS ≤ a)
    (h2 : skipCheck env.history (normalizeGameName g.name) cutoff = false)
    (h3 : g.header_image = some img) (h4 : isBlacklisted g.name = false)
    (h5 : env.image img = .notOk) :
    runLoop env cutoff (g :: rest) a d =
      prependEvent (.imageNotOk g)
        (runLoop env cutoff rest (a + 1) (if 1 < a + 1 then d + 1 else d)) := by
  simp [runLoop, h1, h2, h3, h4, h5]

theorem runLoop_imageThrow (env : RunEnv) (cutoff : ℤ) (g : Deal) (rest : List Deal)
    (a d : ℕ) (img : String) (h1 : ¬ MAX_TWEET_ATTEMPTS ≤ a)
    (h2 : skipCheck env.history (normalizeGameName g.name) cutoff = false)
    (h3 : g.header_image = some img) (h4 : isBlacklisted g.name = false)
    (h5 : env.image img = .fetchThrow) :
    runLoop env cutoff (g :: rest) a d =
      prependEvent (.attemptErrored g)
        (runLoop env cutoff rest (a + 1) (if 1 < a + 1 then d + 1 else d)) := by
  simp [runLoop, h1, h2, h3, h4, h5]

theorem runLoop_publishSuccess (env : RunEnv) (cutoff : ℤ) (g : Deal) (rest : List Deal)
    (a d : ℕ) (img : String) (h1 : ¬ MAX_TWEET_ATTEMPTS ≤ a)
    (h2 : skipCheck env.history (normalizeGameName g.name) cutoff = false)
    (h3 : g.header_image = some img) (h4 : isBlacklisted g.name = false)
    (h5 : env.image img = .ok) (h6 : env.publish (a + 1) = .success) :
    runLoop env cutoff (g :: rest) a d =
      ⟨.posted g, [mkRecord env g], a + 1, if 1 < a + 1 then d + 1 else d,
        [.tweetPosted g]⟩ := by
  simp [runLoop, h1, h2, h3, h4, h5, h6]

theorem runLoop_publishRateLimited (env : RunEnv) (cutoff : ℤ) (g : Deal)
    (rest : List Deal) (a d : ℕ) (img : String) (h1 : ¬ MAX_TWEET_ATTEMPTS ≤ a)
    (h2 : skipCheck env.history (normalizeGameName g.name) cutoff = false)
    (h3 : g.header_image = some img) (h4 : isBlacklisted g.name = false)
    (h5 : env.image img = .ok) (h6 : env.publish (a + 1) = .rateLimited) :
    runLoop env cutoff (g :: rest) a d =
      ⟨.rateLimited, [], a + 1, if 1 < a + 1 then d + 1 else d, [.rateLimitHit g]⟩ := by
  simp [runLoop, h1, h2, h3, h4, h5, h6]

theorem runLoop_publishTransient (env : RunEnv) (cutoff : ℤ) (g : Deal)
    (rest : List Deal) (a d : ℕ) (img : String) (h1 : ¬ MAX_TWEET_ATTEMPTS ≤ a)
    (h2 : skipCheck env.history (normalizeGameName g.name) cutoff = false)
    (h3 : g.header_image = some img) (h4 : isBlacklisted g.name = false)
    (h5 : env.image img = .ok) (h6 : env.publish (a + 1) = .transientError) :
    runLoop env cutoff (g :: rest) a d =
      prependEvent (.attemptErrored g)
        (runLoop env cutoff rest (a + 1) (if 1 < a + 1 then d + 1 else d)) := by
  simp [runLoop, h1, h2, h3, h4, h5, h6]

/-! ### Invariants of the selector loop -/

theorem runLoop_attempts_count (env : RunEnv) (cutoff : ℤ) :
    ∀ (cands : List Deal) (a d : ℕ),
      (runLoop env cutoff cands a d).attempts =
        a + ((runLoop env cutoff cands a d).events.countP Event.isAttempt) := by
  intro cands
  induction cands with
  | nil => intro a d; simp [runLoop_nil]
  | cons g rest ih =>
    intro a d
    by_cases hmax : MAX_TWEET_ATTEMPTS ≤ a
    · simp [runLoop_budget env cutoff g rest a d hmax, Event.isAttempt]
    · by_cases hskip : skipCheck env.history (normalizeGameName g.name) cutoff = true
      · simp [runLoop_skipPosted env cutoff g rest a d hmax hskip, prependEvent,
          Event.isAttempt, ih]
      · have hskip' : skipCheck env.history (normalizeGameName g.name) cutoff = false := by
          simpa using hskip
        cases hImg : g.header_image with
        | none =>
          simp [runLoop_skipNoImage env cutoff g rest a d hmax hskip' hImg, prependEvent,
            Event.isAttempt, ih]
        | some img =>
          by_cases hbl : isBlacklisted g.name = true
          · simp [runLoop_skipBlacklist env cutoff g rest a d img hmax hskip' hImg hbl,
              prependEvent, Event.isAttempt, ih]
          · have hbl' : isBlacklisted g.name = false := by simpa using hbl
            cases hI : env.image img with
            | notOk =>
              rw [runLoop_imageNotOk env cutoff g rest a d img hmax hskip' hImg hbl' hI]
              generalize (if 1 < a + 1 then d + 1 else d) = d2
              have := ih (a + 1) d2
              simp [prependEvent, Event.isAttempt]
              omega
            | fetchThrow =>
              rw [runLoop_imageThrow env cutoff g rest a d img hmax hskip' hImg hbl' hI]
              generalize (if 1 < a + 1 then d + 1 else d) = d2
              have := ih (a + 1) d2
              simp [prependEvent, Event.isAttempt]
              omega
            | ok =>
              cases hP : env.publish (a + 1) with
              | success =>
                simp [runLoop_publishSuccess env cutoff g rest a d img hmax hskip' hImg hbl' hI hP,
                  Event.isAttempt]
              | rateLimited =>
                simp [runLoop_publishRateLimited env cutoff g rest a d img hmax hskip' hImg hbl' hI hP,
                  Event.isAttempt]
              | transientError =>
                rw [runLoop_publishTransient env cutoff g rest a d img hmax hskip' hImg hbl' hI hP]
                generalize (if 1 < a + 1 then d + 1 else d) = d2
                have := ih (a + 1) d2
                simp [prependEvent, Event.isAttempt]
                omega

theorem runLoop_attempts_le (env : RunEnv) (cutoff : ℤ) :
    ∀ (cands : List Deal) (a d : ℕ), a ≤ MAX_TWEET_ATTEMPTS →
      (runLoop env cutoff cands a d).attempts ≤ MAX_TWEET_ATTEMPTS := by
  intro cands
  induction cands with
  | nil => intro a d ha; simpa [runLoop_nil] using ha
  | cons g rest ih =>
    intro a d ha
    by_cases hmax : MAX_TWEET_ATTEMPTS ≤ a
    · simpa [runLoop_budget env cutoff g rest a d hmax] using ha
    · by_cases hskip : skipCheck env.history (normalizeGameName g.name) cutoff = true
      · rw [runLoop_skipPosted env cutoff g rest a d hmax hskip]
        exact ih a d ha
      · have hskip' : skipCheck env.history (normalizeGameName g.name) cutoff = false := by
          simpa using hskip
        cases hImg : g.header_image with
        | none =>
          rw [runLoop_skipNoImage env cutoff g rest a d hmax hskip' hImg]
          exact ih a d ha
        | some img =>
          by_cases hbl : isBlacklisted g.name = true
          · rw [runLoop_skipBlacklist env cutoff g rest a d img hmax hskip' hImg hbl]
            exact ih a d ha
          · have hbl' : isBlacklisted g.name = false := by simpa using hbl
            have ha1 : a + 1 ≤ MAX_TWEET_ATTEMPTS := by omega
            cases hI : env.image img with
            | notOk =>
              rw [runLoop_imageNotOk env cutoff g rest a d img hmax hskip' hImg hbl' hI]
              exact ih (a + 1) _ ha1
            | fetchThrow =>
              rw [runLoop_imageThrow env cutoff g rest a d img hmax hskip' hImg hbl' hI]
              exact ih (a + 1) _ ha1
            | ok =>
              cases hP : env.publish (a + 1) with
              | success =>
                rw [runLoop_publishSuccess env cutoff g rest a d img hmax hskip' hImg hbl' hI hP]
                exact ha1
              | rateLimited =>
                rw [runLoop_publishRateLimited env cutoff g rest a d img hmax hskip' hImg hbl' hI hP]
                exact ha1
              | transientError =>
                rw [runLoop_publishTransient env cutoff g rest a d img hmax hskip' hImg hbl' hI hP]
                exact ih (a + 1) _ ha1

theorem runLoop_delays_count (env : RunEnv) (cutoff : ℤ) :
    ∀ (cands : List Deal) (a d : ℕ),
      (runLoop env cutoff cands a d).delays =
        d + ((runLoop env cutoff cands a d).attempts - max a 1) := by
  intro cands
  induction cands with
  | nil =>
    intro a d
    rw [runLoop_nil]
    show d = d + (a - max a 1)
    omega
  | cons g rest ih =>
    intro a d
    by_cases hmax : MAX_TWEET_ATTEMPTS ≤ a
    · rw [runLoop_budget env cutoff g rest a d hmax]
      show d = d + (a - max a 1)
      omega
    · by_cases hskip : skipCheck env.history (normalizeGameName g.name) cutoff = true
      · rw [runLoop_skipPosted env cutoff g rest a d hmax hskip]
        exact ih a d
      · have hskip' : skipCheck env.history (normalizeGameName g.name) cutoff = false := by
          simpa using hskip
        cases hImg : g.header_image with
        | none =>
          rw [runLoop_skipNoImage env cutoff g rest a d hmax hskip' hImg]
          exact ih a d
        | some img =>
          by_cases hbl : isBlacklisted g.name = true
          · rw [runLoop_skipBlacklist env cutoff g rest a d img hmax hskip' hImg hbl]
            exact ih a d
          · have hbl' : isBlacklisted g.name = false := by simpa using hbl
            cases hI : env.image img with
            | notOk =>
              rw [runLoop_imageNotOk env cutoff g rest a d img hmax hskip' hImg hbl' hI]
              by_cases h01 : 1 < a + 1
              · rw [if_pos h01]
                have h1 := ih (a + 1) (d + 1)
                have h2 := runLoop_attempts_count env cutoff rest (a + 1) (d + 1)
                simp only [prependEvent] at *
                omega
              · rw [if_neg h01]
                have h1 := ih (a + 1) d
                have h2 := runLoop_attempts_count env cutoff rest (a + 1) d
                simp only [prependEvent] at *
                omega
            | fetchThrow =>
              rw [runLoop_imageThrow env cutoff g rest a d img hmax hskip' hImg hbl' hI]
              by_cases h01 : 1 < a + 1
              · rw [if_pos h01]
                have h1 := ih (a + 1) (d + 1)
                have h2 := runLoop_attempts_count env cutoff rest (a + 1) (d + 1)
                simp only [prependEvent] at *
                omega
              · rw [if_neg h01]
                have h1 := ih (a + 1) d
                have h2 := runLoop_attempts_count env cutoff rest (a + 1) d
                simp only [prependEvent] at *
                omega
            | ok =>
              cases hP : env.publish (a + 1) with
              | success =>
                rw [runLoop_publishSuccess env cutoff g rest a d img hmax hskip' hImg hbl' hI hP]
                by_cases h01 : 1 < a + 1
                · rw [if_pos h01]
                  show d + 1 = d + ((a + 1) - max a 1)
                  omega
                · rw [if_neg h01]
                  show d = d + ((a + 1) - max a 1)
                  omega
              | rateLimited =>
                rw [runLoop_publishRateLimited env cutoff g rest a d img hmax hskip' hImg hbl' hI hP]
                by_cases h01 : 1 < a + 1
                · rw [if_pos h01]
                  show d + 1 = d + ((a + 1) - max a 1)
                  omega
                · rw [if_neg h01]
                  show d = d + ((a + 1) - max a 1)
                  omega
              | transientError =>
                rw [runLoop_publishTransient env cutoff g rest a d img hmax hskip' hImg hbl' hI hP]
                by_cases h01 : 1 < a + 1
                · rw [if_pos h01]
                  have h1 := ih (a + 1) (d + 1)
                  have h2 := runLoop_attempts_count env cutoff rest (a + 1) (d + 1)
                  simp only [prependEvent] at *
                  omega
                · rw [if_neg h01]
                  have h1 := ih (a + 1) d
                  have h2 := runLoop_attempts_count env cutoff rest (a + 1) d
                  simp only [prependEvent] at *
                  omega

theorem runLoop_inserted_spec (env : RunEnv) (cutoff : ℤ) :
    ∀ (cands : List Deal) (a d : ℕ),
      (runLoop env cutoff cands a d).inserted.length ≤ 1 ∧
      ∀ r ∈ (runLoop env cutoff cands a d).inserted, ∃ g ∈ cands,
        r = mkRecord env g ∧
        skipCheck env.history (normalizeGameName g.name) cutoff = false := by
  intro cands
  induction cands with
  | nil => intro a d; simp [runLoop_nil]
  | cons g rest ih =>
    intro a d
    have step :
        ∀ e a2 d2, runLoop env cutoff (g :: rest) a d =
            prependEvent e (runLoop env cutoff rest a2 d2) →
          (runLoop env cutoff (g :: rest) a d).inserted.length ≤ 1 ∧
          ∀ r ∈ (runLoop env cutoff (g :: rest) a d).inserted, ∃ g2 ∈ g :: rest,
            r = mkRecord env g2 ∧
            skipCheck env.history (normalizeGameName g2.name) cutoff = false := by
      intro e a2 d2 heq
      rw [heq]
      refine ⟨(ih a2 d2).1, ?_⟩
      intro r hr
      obtain ⟨g2, hg2, h⟩ := (ih a2 d2).2 r hr
      exact ⟨g2, List.mem_cons_of_mem g hg2, h⟩
    by_cases hmax : MAX_TWEET_ATTEMPTS ≤ a
    · simp [runLoop_budget env cutoff g rest a d hmax]
    · by_cases hskip : skipCheck env.history (normalizeGameName g.name) cutoff = true
      · exact step _ _ _ (runLoop_skipPosted env cutoff g rest a d hmax hskip)
      · have hskip' : skipCheck env.history (normalizeGameName g.name) cutoff = false := by
          simpa using hskip
        cases hImg : g.header_image with
        | none => exact step _ _ _ (runLoop_skipNoImage env cutoff g rest a d hmax hskip' hImg)
        | some img =>
          by_cases hbl : isBlacklisted g.name = true
          · exact step _ _ _ (runLoop_skipBlacklist env cutoff g rest a d img hmax hskip' hImg hbl)
          · have hbl' : isBlacklisted g.name = false := by simpa using hbl
            cases hI : env.image img with
            | notOk =>
              exact step _ _ _ (runLoop_imageNotOk env cutoff g rest a d img hmax hskip' hImg hbl' hI)
            | fetchThrow =>
              exact step _ _ _ (runLoop_imageThrow env cutoff g rest a d img hmax hskip' hImg hbl' hI)
            | ok =>
              cases hP : env.publish (a + 1) with
              | success =>
                rw [runLoop_publishSuccess env cutoff g rest a d img hmax hskip' hImg hbl' hI hP]
                refine ⟨by simp, ?_⟩
                intro r hr
                simp only [List.mem_singleton] at hr
                exact ⟨g, List.mem_cons_self g rest, hr, hskip'⟩
              | rateLimited =>
                rw [runLoop_publishRateLimited env cutoff g rest a d img hmax hskip' hImg hbl' hI hP]
                simp
              | transientError =>
                exact step _ _ _
                  (runLoop_publishTransient env cutoff g rest a d img hmax hskip' hImg hbl' hI hP)

theorem runLoop_posted_event (env : RunEnv) (cutoff : ℤ) :
    ∀ (cands : List Deal) (a d : ℕ) (g0 : Deal),
      (runLoop env cutoff cands a d).result = .posted g0 →
      Event.tweetPosted g0 ∈ (runLoop env cutoff cands a d).events := by
  intro cands
  induction cands with
  | nil => intro a d g0 h; simp [runLoop_nil] at h
  | cons g rest ih =>
    intro a d g0
    have step :
        ∀ e a2 d2, runLoop env cutoff (g :: rest) a d =
            prependEvent e (runLoop env cutoff rest a2 d2) →
          (runLoop env cutoff (g :: rest) a d).result = .posted g0 →
          Event.tweetPosted g0 ∈ (runLoop env cutoff (g :: rest) a d).events := by
      intro e a2 d2 heq h
      rw [heq] at h ⊢
      exact List.mem_cons_of_mem e (ih a2 d2 g0 h)
    by_cases hmax : MAX_TWEET_ATTEMPTS ≤ a
    · intro h
      rw [runLoop_budget env cutoff g rest a d hmax] at h
      simp at h
    · by_cases hskip : skipCheck env.history (normalizeGameName g.name) cutoff = true
      · exact step _ _ _ (runLoop_skipPosted env cutoff g rest a d hmax hskip)
      · have hskip' : skipCheck env.history (normalizeGameName g.name) cutoff = false := by
          simpa using hskip
        cases hImg : g.header_image with
        | none => exact step _ _ _ (runLoop_skipNoImage env cutoff g rest a d hmax hskip' hImg)
        | some img =>
          by_cases hbl : isBlacklisted g.name = true
          · exact step _ _ _ (runLoop_skipBlacklist env cutoff g rest a d img hmax hskip' hImg hbl)
          · have hbl' : isBlacklisted g.name = false := by simpa using hbl
            cases hI : env.image img with
            | notOk =>
              exact step _ _ _ (runLoop_imageNotOk env cutoff g rest a d img hmax hskip' hImg hbl' hI)
            | fetchThrow =>
              exact step _ _ _ (runLoop_imageThrow env cutoff g rest a d img hmax hskip' hImg hbl' hI)
            | ok =>
              cases hP : env.publish (a + 1) with
              | success =>
                intro h
                rw [runLoop_publishSuccess env cutoff g rest a d img hmax hskip' hImg hbl' hI hP] at h ⊢
                simp only [RunResult.posted.injEq] at h
                simp [h]
              | rateLimited =>
                intro h
                rw [runLoop_publishRateLimited env cutoff g rest a d img hmax hskip' hImg hbl' hI hP] at h
                simp at h
              | transientError =>
                exact step _ _ _
                  (runLoop_publishTransient env cutoff g rest a d img hmax hskip' hImg hbl' hI hP)

theorem runLoop_rateLimited_spec (env : RunEnv) (cutoff : ℤ) :
    ∀ (cands : List Deal) (a d : ℕ),
      (runLoop env cutoff cands a d).result = .rateLimited →
      (∃ g0, Event.rateLimitHit g0 ∈ (runLoop env cutoff cands a d).events) ∧
      (runLoop env cutoff cands a d).inserted = [] := by
  intro cands
  induction cands with
  | nil => intro a d h; simp [runLoop_nil] at h
  | cons g rest ih =>
    intro a d
    have step :
        ∀ e a2 d2, runLoop env cutoff (g :: rest) a d =
            prependEvent e (runLoop env cutoff rest a2 d2) →
          (runLoop env cutoff (g :: rest) a d).result = .rateLimited →
          (∃ g0, Event.rateLimitHit g0 ∈ (runLoop env cutoff (g :: rest) a d).events) ∧
          (runLoop env cutoff (g :: rest) a d).inserted = [] := by
      intro e a2 d2 heq h
      rw [heq] at h ⊢
      obtain ⟨⟨g0, hg0⟩, hins⟩ := ih a2 d2 h
      exact ⟨⟨g0, List.mem_cons_of_mem e hg0⟩, hins⟩
    by_cases hmax : MAX_TWEET_ATTEMPTS ≤ a
    · intro h
      rw [runLoop_budget env cutoff g rest a d hmax] at h
      simp at h
    · by_cases hskip : skipCheck env.history (normalizeGameName g.name) cutoff = true
      · exact step _ _ _ (runLoop_skipPosted env cutoff g rest a d hmax hskip)
      · have hskip' : skipCheck env.history (normalizeGameName g.name) cutoff = false := by
          simpa using hskip
        cases hImg : g.header_image with
        | none => exact step _ _ _ (runLoop_skipNoImage env cutoff g rest a d hmax hskip' hImg)
        | some img =>
          by_cases hbl : isBlacklisted g.name = true
          · exact step _ _ _ (runLoop_skipBlacklist env cutoff g rest a d img hmax hskip' hImg hbl)
          · have hbl' : isBlacklisted g.name = false := by simpa using hbl
            cases hI : env.image img with
            | notOk =>
              exact step _ _ _ (runLoop_imageNotOk env cutoff g rest a d img hmax hskip' hImg hbl' hI)
            | fetchThrow =>
              exact step _ _ _ (runLoop_imageThrow env cutoff g rest a d img hmax hskip' hImg hbl' hI)
            | ok =>
              cases hP : env.publish (a + 1) with
              | success =>
                intro h
                rw [runLoop_publishSuccess env cutoff g rest a d img hmax hskip' hImg hbl' hI hP] at h
                simp at h
              | rateLimited =>
                intro h
                rw [runLoop_publishRateLimited env cutoff g rest a d img hmax hskip' hImg hbl' hI hP]
                exact ⟨⟨g, by simp⟩, rfl⟩
              | transientError =>
                exact step _ _ _
                  (runLoop_publishTransient env cutoff g rest a d img hmax hskip' hImg hbl' hI hP)

theorem runLoop_events_nil (env : RunEnv) (cutoff : ℤ) :
    ∀ (cands : List Deal) (a d : ℕ),
      (runLoop env cutoff cands a d).events = [] →
      (runLoop env cutoff cands a d).result = .noneEligible ∧
      (runLoop env cutoff cands a d).inserted = [] := by
  intro cands
  induction cands with
  | nil => intro a d _; simp [runLoop_nil]
  | cons g rest ih =>
    intro a d
    by_cases hmax : MAX_TWEET_ATTEMPTS ≤ a
    · intro h
      rw [runLoop_budget env cutoff g rest a d hmax] at h
      simp at h
    · by_cases hskip : skipCheck env.history (normalizeGameName g.name) cutoff = true
      · intro h
        rw [runLoop_skipPosted env cutoff g rest a d hmax hskip] at h
        simp [prependEvent] at h
      · have hskip' : skipCheck env.history (normalizeGameName g.name) cutoff = false := by
          simpa using hskip
        cases hImg : g.header_image with
        | none =>
          intro h
          rw [runLoop_skipNoImage env cutoff g rest a d hmax hskip' hImg] at h
          simp [prependEvent] at h
        | some img =>
          by_cases hbl : isBlacklisted g.name = true
          · intro h
            rw [runLoop_skipBlacklist env cutoff g rest a d img hmax hskip' hImg hbl] at h
            simp [prependEvent] at h
          · have hbl' : isBlacklisted g.name = false := by simpa using hbl
            cases hI : env.image img with
            | notOk =>
              intro h
              rw [runLoop_imageNotOk env cutoff g rest a d img hmax hskip' hImg hbl' hI] at h
              simp [prependEvent] at h
            | fetchThrow =>
              intro h
              rw [runLoop_imageThrow env cutoff g rest a d img hmax hskip' hImg hbl' hI] at h
              simp [prependEvent] at h
            | ok =>
              cases hP : env.publish (a + 1) with
              | success =>
                intro h
                rw [runLoop_publishSuccess env cutoff g rest a d img hmax hskip' hImg hbl' hI hP] at h
                simp at h
              | rateLimited =>
                intro h
                rw [runLoop_publishRateLimited env cutoff g rest a d img hmax hskip' hImg hbl' hI hP] at h
                simp at h
              | transientError =>
                intro h
                rw [runLoop_publishTransient env cutoff g rest a d img hmax hskip' hImg hbl' hI hP] at h
                simp [prependEvent] at h

theorem runLoop_rateLimit_terminal (env : RunEnv) (cutoff : ℤ) :
    ∀ (cands : List Deal) (a d : ℕ) (pre : List Event) (g0 : Deal) (post : List Event),
      (runLoop env cutoff cands a d).events = pre ++ .rateLimitHit g0 :: post →
      post = [] ∧ (runLoop env cutoff cands a d).result = .rateLimited ∧
      (runLoop env cutoff cands a d).inserted = [] := by
  intro cands
  induction cands with
  | nil =>
    intro a d pre g0 post h
    rw [runLoop_nil] at h
    exact absurd h.symm (List.append_ne_nil_of_right_ne_nil pre (List.cons_ne_nil _ _))
  | cons g rest ih =>
    intro a d pre g0 post
    have step :
        ∀ e a2 d2, (∀ h0 : Deal, e ≠ .rateLimitHit h0) →
          runLoop env cutoff (g :: rest) a d =
            prependEvent e (runLoop env cutoff rest a2 d2) →
          (runLoop env cutoff (g :: rest) a d).events = pre ++ .rateLimitHit g0 :: post →
          post = [] ∧ (runLoop env cutoff (g :: rest) a d).result = .rateLimited ∧
          (runLoop env cutoff (g :: rest) a d).inserted = [] := by
      intro e a2 d2 hne heq h
      rw [heq] at h ⊢
      simp only [prependEvent] at h ⊢
      cases pre with
      | nil =>
        simp only [List.nil_append] at h
        exact absurd (List.head_eq_of_cons_eq h) (hne g0)
      | cons x pre2 =>
        simp only [List.cons_append] at h
        have h2 := List.tail_eq_of_cons_eq h
        exact ih a2 d2 pre2 g0 post h2
    by_cases hmax : MAX_TWEET_ATTEMPTS ≤ a
    · intro h
      rw [runLoop_budget env cutoff g rest a d hmax] at h
      cases pre with
      | nil =>
        simp only [List.nil_append] at h
        exact absurd (List.head_eq_of_cons_eq h) (by intro hcon; cases hcon)
      | cons x pre2 =>
        simp only [List.cons_append] at h
        exact absurd (List.tail_eq_of_cons_eq h).symm
          (List.append_ne_nil_of_right_ne_nil pre2 (List.cons_ne_nil _ _))
    · by_cases hskip : skipCheck env.history (normalizeGameName g.name) cutoff = true
      · exact step _ _ _ (by intro h0 hcon; cases hcon)
          (runLoop_skipPosted env cutoff g rest a d hmax hskip)
      · have hskip' : skipCheck env.history (normalizeGameName g.name) cutoff = false := by
          simpa using hskip
        cases hImg : g.header_image with
        | none =>
          exact step _ _ _ (by intro h0 hcon; cases hcon)
            (runLoop_skipNoImage env cutoff g rest a d hmax hskip' hImg)
        | some img =>
          by_cases hbl : isBlacklisted g.name = true
          · exact step _ _ _ (by intro h0 hcon; cases hcon)
              (runLoop_skipBlacklist env cutoff g rest a d img hmax hskip' hImg hbl)
          · have hbl' : isBlacklisted g.name = false := by simpa using hbl
            cases hI : env.image img with
            | notOk =>
              exact step _ _ _ (by intro h0 hcon; cases hcon)
                (runLoop_imageNotOk env cutoff g rest a d img hmax hskip' hImg hbl' hI)
            | fetchThrow =>
              exact step _ _ _ (by intro h0 hcon; cases hcon)
                (runLoop_imageThrow env cutoff g rest a d img hmax hskip' hImg hbl' hI)
            | ok =>
              cases hP : env.publish (a + 1) with
              | success =>
                intro h
                rw [runLoop_publishSuccess env cutoff g rest a d img hmax hskip' hImg hbl' hI hP] at h ⊢
                cases pre with
                | nil =>
                  simp only [List.nil_append] at h
                  exact absurd (List.head_eq_of_cons_eq h) (by intro hcon; cases hcon)
                | cons x pre2 =>
                  simp only [List.cons_append] at h
                  exact absurd (List.tail_eq_of_cons_eq h).symm
                    (List.append_ne_nil_of_right_ne_nil pre2 (List.cons_ne_nil _ _))
              | rateLimited =>
                intro h
                rw [runLoop_publishRateLimited env cutoff g rest a d img hmax hskip' hImg hbl' hI hP] at h ⊢
                cases pre with
                | nil =>
                  simp only [List.nil_append] at h
                  exact ⟨(List.tail_eq_of_cons_eq h).symm, rfl, rfl⟩
                | cons x pre2 =>
                  simp only [List.cons_append] at h
                  exact absurd (List.tail_eq_of_cons_eq h).symm
                    (List.append_ne_nil_of_right_ne_nil pre2 (List.cons_ne_nil _ _))
              | transientError =>
                exact step _ _ _ (by intro h0 hcon; cases hcon)
                  (runLoop_publishTransient env cutoff g rest a d img hmax hskip' hImg hbl' hI hP)

theorem runLoop_imageFail_last (env : RunEnv) (cutoff : ℤ) :
    ∀ (cands : List Deal) (a d : ℕ) (pre : List Event) (g0 : Deal),
      (runLoop env cutoff cands a d).events = pre ++ [.imageNotOk g0] →
      (runLoop env cutoff cands a d).result = .noneEligible := by
  intro cands
  induction cands with
  | nil =>
    intro a d pre g0 h
    rw [runLoop_nil] at h
    exact absurd h.symm (List.append_ne_nil_of_right_ne_nil pre (List.cons_ne_nil _ _))
  | cons g rest ih =>
    intro a d pre g0
    have step :
        ∀ e a2 d2,
          runLoop env cutoff (g :: rest) a d =
            prependEvent e (runLoop env cutoff rest a2 d2) →
          (runLoop env cutoff (g :: rest) a d).events = pre ++ [.imageNotOk g0] →
          (runLoop env cutoff (g :: rest) a d).result = .noneEligible := by
      intro e a2 d2 heq h
      rw [heq] at h ⊢
      simp only [prependEvent] at h ⊢
      cases pre with
      | nil =>
        simp only [List.nil_append] at h
        have h2 := List.tail_eq_of_cons_eq h
        exact (runLoop_events_nil env cutoff rest a2 d2 h2).1
      | cons x pre2 =>
        simp only [List.cons_append] at h
        exact ih a2 d2 pre2 g0 (List.tail_eq_of_cons_eq h)
    by_cases hmax : MAX_TWEET_ATTEMPTS ≤ a
    · intro _
      rw [runLoop_budget env cutoff g rest a d hmax]
    · by_cases hskip : skipCheck env.history (normalizeGameName g.name) cutoff = true
      · exact step _ _ _ (runLoop_skipPosted env cutoff g rest a d hmax hskip)
      · have hskip' : skipCheck env.history (normalizeGameName g.name) cutoff = false := by
          simpa using hskip
        cases hImg : g.header_image with
        | none => exact step _ _ _ (runLoop_skipNoImage env cutoff g rest a d hmax hskip' hImg)
        | some img =>
          by_cases hbl : isBlacklisted g.name = true
          · exact step _ _ _ (runLoop_skipBlacklist env cutoff g rest a d img hmax hskip' hImg hbl)
          · have hbl' : isBlacklisted g.name = false := by simpa using hbl
            cases hI : env.image img with
            | notOk =>
              exact step _ _ _ (runLoop_imageNotOk env cutoff g rest a d img hmax hskip' hImg hbl' hI)
            | fetchThrow =>
              exact step _ _ _ (runLoop_imageThrow env cutoff g rest a d img hmax hskip' hImg hbl' hI)
            | ok =>
              cases hP : env.publish (a + 1) with
              | success =>
                intro h
                rw [runLoop_publishSuccess env cutoff g rest a d img hmax hskip' hImg hbl' hI hP] at h
                cases pre with
                | nil =>
                  simp only [List.nil_append] at h
                  exact absurd (List.head_eq_of_cons_eq h) (by intro hcon; cases hcon)
                | cons x pre2 =>
                  simp only [List.cons_append] at h
                  exact absurd (List.tail_eq_of_cons_eq h).symm
                    (List.append_ne_nil_of_right_ne_nil pre2 (List.cons_ne_nil _ _))
              | rateLimited =>
                intro h
                rw [runLoop_publishRateLimited env cutoff g rest a d img hmax hskip' hImg hbl' hI hP] at h
                cases pre with
                | nil =>
                  simp only [List.nil_append] at h
                  exact absurd (List.head_eq_of_cons_eq h) (by intro hcon; cases hcon)
                | cons x pre2 =>
                  simp only [List.cons_append] at h
                  exact absurd (List.tail_eq_of_cons_eq h).symm
                    (List.append_ne_nil_of_right_ne_nil pre2 (List.cons_ne_nil _ _))
              | transientError =>
                exact step _ _ _
                  (runLoop_publishTransient env cutoff g rest a d img hmax hskip' hImg hbl' hI hP)

theorem runLoop_not_posted_inserted_nil (env : RunEnv) (cutoff : ℤ) :
    ∀ (cands : List Deal) (a d : ℕ),
      (∀ g0 : Deal, (runLoop env cutoff cands a d).result ≠ .posted g0) →
      (runLoop env cutoff cands a d).inserted = [] := by
  intro cands
  induction cands with
  | nil => intro a d _; rfl
  | cons g rest ih =>
    intro a d
    have step :
        ∀ e a2 d2, runLoop env cutoff (g :: rest) a d =
            prependEvent e (runLoop env cutoff rest a2 d2) →
          (∀ g0 : Deal, (runLoop env cutoff (g :: rest) a d).result ≠ .posted g0) →
          (runLoop env cutoff (g :: rest) a d).inserted = [] := by
      intro e a2 d2 heq h
      rw [heq] at h ⊢
      exact ih a2 d2 h
    by_cases hmax : MAX_TWEET_ATTEMPTS ≤ a
    · intro _
      rw [runLoop_budget env cutoff g rest a d hmax]
    · by_cases hskip : skipCheck env.history (normalizeGameName g.name) cutoff = true
      · exact step _ _ _ (runLoop_skipPosted env cutoff g rest a d hmax hskip)
      · have hskip' : skipCheck env.history (normalizeGameName g.name) cutoff = false := by
          simpa using hskip
        cases hImg : g.header_image with
        | none => exact step _ _ _ (runLoop_skipNoImage env cutoff g rest a d hmax hskip' hImg)
        | some img =>
          by_cases hbl : isBlacklisted g.name = true
          · exact step _ _ _ (runLoop_skipBlacklist env cutoff g rest a d img hmax hskip' hImg hbl)
          · have hbl' : isBlacklisted g.name = false := by simpa using hbl
            cases hI : env.image img with
            | notOk =>
              exact step _ _ _ (runLoop_imageNotOk env cutoff g rest a d img hmax hskip' hImg hbl' hI)
            | fetchThrow =>
              exact step _ _ _ (runLoop_imageThrow env cutoff g rest a d img hmax hskip' hImg hbl' hI)
            | ok =>
              cases hP : env.publish (a + 1) with
              | success =>
                intro h
                rw [runLoop_publishSuccess env cutoff g rest a d img hmax hskip' hImg hbl' hI hP] at h
                exact absurd rfl (h g)
              | rateLimited =>
                intro _
                rw [runLoop_publishRateLimited env cutoff g rest a d img hmax hskip' hImg hbl' hI hP]
              | transientError =>
                exact step _ _ _
                  (runLoop_publishTransient env cutoff g rest a d img hmax hskip' hImg hbl' hI hP)

theorem countP_add_le_of_disjoint (p q r : Event → Bool)
    (hpq : ∀ e, ¬(p e = true ∧ q e = true))
    (hpr : ∀ e, p e = true → r e = true) (hqr : ∀ e, q e = true → r e = true) :
    ∀ l : List Event, l.countP p + l.countP q ≤ l.countP r := by
  intro l
  induction l with
  | nil => simp
  | cons e t ih =>
    by_cases hp : p e = true
    · have hq : ¬ q e = true := fun hq => hpq e ⟨hp, hq⟩
      rw [List.countP_cons_of_pos p t hp, List.countP_cons_of_neg q t hq,
        List.countP_cons_of_pos r t (hpr e hp)]
      omega
    · by_cases hq : q e = true
      · rw [List.countP_cons_of_neg p t hp, List.countP_cons_of_pos q t hq,
          List.countP_cons_of_pos r t (hqr e hq)]
        omega
      · rw [List.countP_cons_of_neg p t hp, List.countP_cons_of_neg q t hq]
        calc t.countP p + t.countP q ≤ t.countP r := ih
          _ ≤ (e :: t).countP r := by rw [List.countP_cons]; omega

/-! ### Claim C3: a rate-limit signal halts the run -/

/-- C3: whenever the publish capability signals a rate limit on an attempt,
that event is the last thing the run does: nothing is scanned or attempted
after it, the run's outcome is the rate-limited terminal, and no
`posted_games` row is written in that run. -/
theorem rate_limit_halts_run (env : RunEnv) (allDeals : List Deal)
    (pre : List Event) (g0 : Deal) (post : List Event)
    (h : (runPipeline env allDeals).events = pre ++ Event.rateLimitHit g0 :: post) :
    post = [] ∧ (runPipeline env allDeals).result = .rateLimited ∧
      (runPipeline env allDeals).inserted = [] :=
  runLoop_rateLimit_terminal env
    (env.now - (repostHoursFor (uniqueDealsOf allDeals).length : ℤ) * 3600000)
    (uniqueDealsOf allDeals) 0 0 pre g0 post h

/-- Witness for C3: with one candidate and a rate-limiting publisher the
whole trace is the single rate-limit event and nothing is inserted. -/
theorem rate_limit_halts_run_witness :
    ([] : List Event) = [] ∧
      (runPipeline envRateLimited [dealAlphaOne]).result = .rateLimited ∧
      (runPipeline envRateLimited [dealAlphaOne]).inserted = [] :=
  rate_limit_halts_run envRateLimited [dealAlphaOne] [] dealAlphaOne [] (by decide)

/-! ### Claim C4: the attempt budget and the cooldown delays -/

/-- Counterexample for C4: in the three-consecutive-transient-failure
scenario the run observes exactly three failed attempts but only TWO
cooldown delays (before attempts 2 and 3, never before the first), not the
three the claim states. -/
theorem attempt_budget_two_delays_counterexample :
    (runPipeline envTransient [dealAlphaOne, dealBetaTwo, dealGammaThree]).events.countP
        Event.isErrored = 3 ∧
    (runPipeline envTransient [dealAlphaOne, dealBetaTwo, dealGammaThree]).delays = 2 ∧
    ¬ (runPipeline envTransient [dealAlphaOne, dealBetaTwo, dealGammaThree]).delays = 3 := by
  decide

/-- C4 (amended): publish attempts per run are hard-capped at 3; the
cooldown delay is inserted only between attempts, never before the first,
so the delay count is always one less than the attempt count (two delays in
the three-failure scenario); and a run with three transient attempt
failures terminates with no post published and nothing inserted. -/
theorem attempt_budget_cap_and_delays (env : RunEnv) (allDeals : List Deal) :
    (runPipeline env allDeals).attempts ≤ 3 ∧
    (runPipeline env allDeals).delays = (runPipeline env allDeals).attempts - 1 ∧
    ((runPipeline env allDeals).events.countP Event.isErrored = 3 →
      (runPipeline env allDeals).result = .noneEligible ∧
      (runPipeline env allDeals).inserted = []) := by
  have hcut : runPipeline env allDeals =
      runLoop env (env.now - (repostHoursFor (uniqueDealsOf allDeals).length : ℤ) * 3600000)
        (uniqueDealsOf allDeals) 0 0 := rfl
  set cutoff := env.now - (repostHoursFor (uniqueDealsOf allDeals).length : ℤ) * 3600000
  set cands := uniqueDealsOf allDeals
  refine ⟨?_, ?_, ?_⟩
  · rw [hcut]
    exact runLoop_attempts_le env cutoff cands 0 0 (by simp [MAX_TWEET_ATTEMPTS])
  · rw [hcut]
    have := runLoop_delays_count env cutoff cands 0 0
    simpa using this
  · intro h3
    rw [hcut] at h3 ⊢
    have hcount := runLoop_attempts_count env cutoff cands 0 0
    have hle := runLoop_attempts_le env cutoff cands 0 0 (by simp [MAX_TWEET_ATTEMPTS])
    have hnotposted : ∀ g0 : Deal, (runLoop env cutoff cands 0 0).result ≠ .posted g0 := by
      intro g0 hres
      have hmem := runLoop_posted_event env cutoff cands 0 0 g0 hres
      have hq : 0 < (runLoop env cutoff cands 0 0).events.countP
          (fun e => decide (e = Event.tweetPosted g0)) :=
        List.countP_pos_iff.mpr ⟨Event.tweetPosted g0, hmem, by simp⟩
      have hdisj := countP_add_le_of_disjoint Event.isErrored
        (fun e => decide (e = Event.tweetPosted g0)) Event.isAttempt
        (by intro e ⟨hp, hq2⟩; simp only [decide_eq_true_eq] at hq2; subst hq2; cases hp)
        (by intro e hp; cases e <;> first | rfl | cases hp)
        (by intro e hq2; simp only [decide_eq_true_eq] at hq2; subst hq2; rfl)
        (runLoop env cutoff cands 0 0).events
      rw [h3] at hdisj
      simp only [MAX_TWEET_ATTEMPTS] at hle
      omega
    have hnotrate : (runLoop env cutoff cands 0 0).result ≠ .rateLimited := by
      intro hres
      obtain ⟨⟨g0, hmem⟩, _⟩ := runLoop_rateLimited_spec env cutoff cands 0 0 hres
      have hq : 0 < (runLoop env cutoff cands 0 0).events.countP
          (fun e => decide (e = Event.rateLimitHit g0)) :=
        List.countP_pos_iff.mpr ⟨Event.rateLimitHit g0, hmem, by simp⟩
      have hdisj := countP_add_le_of_disjoint Event.isErrored
        (fun e => decide (e = Event.rateLimitHit g0)) Event.isAttempt
        (by intro e ⟨hp, hq2⟩; simp only [decide_eq_true_eq] at hq2; subst hq2; cases hp)
        (by intro e hp; cases e <;> first | rfl | cases hp)
        (by intro e hq2; simp only [decide_eq_true_eq] at hq2; subst hq2; rfl)
        (runLoop env cutoff cands 0 0).events
      rw [h3] at hdisj
      simp only [MAX_TWEET_ATTEMPTS] at hle
      omega
    refine ⟨?_, runLoop_not_posted_inserted_nil env cutoff cands 0 0 hnotposted⟩
    cases hres : (runLoop env cutoff cands 0 0).result with
    | posted g0 => exact absurd hres (hnotposted g0)
    | noneEligible => rfl
    | rateLimited => exact absurd hres hnotrate

/-- Witness for C4 at the three-transient-failure scenario. -/
theorem attempt_budget_cap_and_delays_witness :
    (runPipeline envTransient [dealAlphaOne, dealBetaTwo, dealGammaThree]).attempts ≤ 3 ∧
    (runPipeline envTransient [dealAlphaOne, dealBetaTwo, dealGammaThree]).result =
      .noneEligible ∧
    (runPipeline envTransient [dealAlphaOne, dealBetaTwo, dealGammaThree]).inserted = [] :=
  ⟨(attempt_budget_cap_and_delays envTransient
      [dealAlphaOne, dealBetaTwo, dealGammaThree]).1,
   (attempt_budget_cap_and_delays envTransient
      [dealAlphaOne, dealBetaTwo, dealGammaThree]).2.2 (by decide)⟩

/-! ### Claim C5: image-fetch failures and the attempt budget -/

/-- Counterexample for C5: three candidates whose image fetches fail (with
no publish attempt ever made) exhaust the whole attempt budget, so the
fourth, publishable candidate is never reached and nothing is posted — the
attempt counter IS incremented by image-failed candidates. -/
theorem image_fail_consumes_budget_counterexample :
    (runPipeline envImageFail [dealAlphaOne, dealBetaTwo, dealGammaThree, dealDeltaFour]).events =
      [.imageNotOk dealAlphaOne, .imageNotOk dealBetaTwo, .imageNotOk dealGammaThree,
        .budgetStop] ∧
    (runPipeline envImageFail [dealAlphaOne, dealBetaTwo, dealGammaThree, dealDeltaFour]).attempts = 3 ∧
    (runPipeline envImageFail [dealAlphaOne, dealBetaTwo, dealGammaThree, dealDeltaFour]).inserted = [] ∧
    (runPipeline envImageFail [dealAlphaOne, dealBetaTwo, dealGammaThree, dealDeltaFour]).result =
      .noneEligible := by
  decide

/-- C5 (amended): a failed image fetch sends the loop back to scanning the
next candidate (a run whose trace ends with an image failure terminates in
the none-eligible outcome), but it DOES consume attempt budget: the final
attempt counter counts image-failed attempts together with errored,
rate-limited and published ones. -/
theorem image_fail_counts_toward_budget (env : RunEnv) (allDeals : List Deal) :
    (runPipeline env allDeals).attempts =
      (runPipeline env allDeals).events.countP Event.isAttempt ∧
    (∀ (pre : List Event) (g0 : Deal),
      (runPipeline env allDeals).events = pre ++ [.imageNotOk g0] →
      (runPipeline env allDeals).result = .noneEligible) := by
  constructor
  · have := runLoop_attempts_count env
      (env.now - (repostHoursFor (uniqueDealsOf allDeals).length : ℤ) * 3600000)
      (uniqueDealsOf allDeals) 0 0
    simpa using this
  · intro pre g0 h
    exact runLoop_imageFail_last env
      (env.now - (repostHoursFor (uniqueDealsOf allDeals).length : ℤ) * 3600000)
      (uniqueDealsOf allDeals) 0 0 pre g0 h

/-- Witness for C5: a run with one image-failed candidate has attempt
counter 1 (equal to its one attempt event) and ends none-eligible. -/
theorem image_fail_counts_toward_budget_witness :
    (runPipeline envImageFailOne [dealAlphaOne]).attempts =
      (runPipeline envImageFailOne [dealAlphaOne]).events.countP Event.isAttempt ∧
    (runPipeline envImageFailOne [dealAlphaOne]).result = .noneEligible :=
  ⟨(image_fail_counts_toward_budget envImageFailOne [dealAlphaOne]).1,
   (image_fail_counts_toward_budget envImageFailOne [dealAlphaOne]).2 []
     dealAlphaOne (by decide)⟩

/-! ### Claim C9: adapter failure behaviour -/

/-- Counterexample for C9: the Epic adapter with a transport failure on its
free-games request and a healthy CheapShark response returns a NON-empty
deal sequence: a failure condition inside the adapter does not make it
return the empty sequence. -/
theorem adapter_failure_nonempty_counterexample :
    HttpResult.isFailure (EpicInput.mk HttpResult.netError
      (HttpResult.payload [csHades])).free = true ∧
    fetchEpicDeals (EpicInput.mk HttpResult.netError (HttpResult.payload [csHades])) ≠ [] := by
  constructor
  · rfl
  · decide

/-- C9 (amended): no adapter ever propagates a transport, status or parse
failure — each returns normally on every input; Steam and GOG, whose whole
body sits in one try/catch over an empty accumulator, return the empty
sequence on any such failure; the Epic adapter catches its two sub-requests
independently, so it returns empty only when BOTH fail, and otherwise
returns the deals of the surviving block. -/
theorem adapter_failures_degrade_locally :
    (∀ r : HttpResult SteamData, r.isFailure = true → fetchSteamDeals r = []) ∧
    (∀ r : HttpResult (List GogProduct), r.isFailure = true → fetchGOGDeals r = []) ∧
    (∀ inp : EpicInput, inp.free.isFailure = true → inp.cheapShark.isFailure = true →
      fetchEpicDeals inp = []) ∧
    (∀ inp : EpicInput, inp.free.isFailure = true →
      fetchEpicDeals inp =
        (match inp.cheapShark with
         | .payload games => epicCsLoop games []
         | _ => [])) ∧
    (∀ inp : EpicInput, inp.cheapShark.isFailure = true →
      fetchEpicDeals inp =
        (match inp.free with
         | .payload games => epicFreeLoop games []
         | _ => [])) := by
  refine ⟨?_, ?_, ?_, ?_, ?_⟩
  · intro r h
    cases r <;> simp_all [HttpResult.isFailure, fetchSteamDeals]
  · intro r h
    cases r <;> simp_all [HttpResult.isFailure, fetchGOGDeals]
  · intro inp h1 h2
    obtain ⟨free, cs⟩ := inp
    cases free <;> cases cs <;> simp_all [HttpResult.isFailure, fetchEpicDeals]
  · intro inp h1
    obtain ⟨free, cs⟩ := inp
    cases free <;> cases cs <;> simp_all [HttpResult.isFailure, fetchEpicDeals]
  · intro inp h2
    obtain ⟨free, cs⟩ := inp
    cases free <;> cases cs <;> simp_all [HttpResult.isFailure, fetchEpicDeals]

/-- Witness for C9 (amended) at concrete failing inputs. -/
theorem adapter_failures_degrade_locally_witness :
    fetchSteamDeals HttpResult.netError = [] ∧
    fetchGOGDeals HttpResult.notOk = [] ∧
    fetchEpicDeals (EpicInput.mk HttpResult.netError HttpResult.parseError) = [] ∧
    fetchEpicDeals (EpicInput.mk HttpResult.netError (HttpResult.payload [csHades])) =
      epicCsLoop [csHades] [] :=
  ⟨adapter_failures_degrade_locally.1 HttpResult.netError rfl,
   adapter_failures_degrade_locally.2.1 HttpResult.notOk rfl,
   adapter_failures_degrade_locally.2.2.1 (EpicInput.mk HttpResult.netError
     HttpResult.parseError) rfl rfl,
   adapter_failures_degrade_locally.2.2.2.1 (EpicInput.mk HttpResult.netError
     (HttpResult.payload [csHades])) rfl⟩

/-! ### Claim C2: the second run never re-posts the recorded title -/

theorem skipCheck_eq_false_iff (history : List PostRecord) (title : String) (cutoff : ℤ) :
    skipCheck history title cutoff = false ↔
      ∀ r ∈ history, ilikeEq r.game_title title = true → r.created_at ≤ cutoff := by
  unfold skipCheck
  rw [Bool.not_eq_false', List.isEmpty_iff, List.filter_eq_nil_iff]
  constructor
  · intro h r hr hil
    have := h r hr
    simp only [Bool.and_eq_true, decide_eq_true_eq, not_and] at this
    exact Int.not_lt.mp (this hil)
  · intro h r hr
    simp only [Bool.and_eq_true, decide_eq_true_eq, not_and]
    intro hil
    exact Int.not_lt.mpr (h r hr hil)

/-- C2 (amended): within the repost window the second run never inserts a
record whose title case-insensitively matches the title recorded by the
first run — the normalized key recorded on success is exactly what the
eligibility query matches, so the already-posted title is skipped — and
every single run inserts at most one record.  (The second run may still
publish a DIFFERENT eligible title, so two runs can total two posts.) -/
theorem second_run_skips_recorded_title (env1 env2 : RunEnv) (allDeals : List Deal)
    (rec : PostRecord)
    (h1 : (runPipeline env1 allDeals).inserted = [rec])
    (h2hist : env2.history = env1.history ++ [rec])
    (hwin : env2.now - env1.now <
      (repostHoursFor (uniqueDealsOf allDeals).length : ℤ) * 3600000) :
    (∀ r ∈ (runPipeline env2 allDeals).inserted,
      ilikeEq rec.game_title r.game_title = false) ∧
    (∀ (envA : RunEnv) (ds : List Deal), (runPipeline envA ds).inserted.length ≤ 1) := by
  constructor
  · intro r hr
    -- the record written by the first run carries its normalized key and time
    have hrec1 : rec ∈ (runPipeline env1 allDeals).inserted := by
      rw [h1]
      exact List.mem_singleton_self rec
    obtain ⟨g1, _, hrec_eq, _⟩ :=
      (runLoop_inserted_spec env1
        (env1.now - (repostHoursFor (uniqueDealsOf allDeals).length : ℤ) * 3600000)
        (uniqueDealsOf allDeals) 0 0).2 rec hrec1
    -- the record written by the second run comes from a candidate that
    -- passed the eligibility query against the grown history
    obtain ⟨g2, _, hr_eq, hfresh⟩ :=
      (runLoop_inserted_spec env2
        (env2.now - (repostHoursFor (uniqueDealsOf allDeals).length : ℤ) * 3600000)
        (uniqueDealsOf allDeals) 0 0).2 r hr
    have hfresh' := (skipCheck_eq_false_iff env2.history (normalizeGameName g2.name)
      (env2.now - (repostHoursFor (uniqueDealsOf allDeals).length : ℤ) * 3600000)).mp hfresh
    have hrecmem : rec ∈ env2.history := by
      rw [h2hist]
      exact List.mem_append_right env1.history (List.mem_singleton_self rec)
    have hrec_time : rec.created_at = env1.now := by
      rw [hrec_eq]
      rfl
    by_contra hcon
    have hil : ilikeEq rec.game_title (normalizeGameName g2.name) = true := by
      have hr_title : r.game_title = normalizeGameName g2.name := by
        rw [hr_eq]
        rfl
      rw [← hr_title]
      simpa using hcon
    have := hfresh' rec hrecmem hil
    rw [hrec_time] at this
    omega
  · intro envA ds
    exact (runLoop_inserted_spec envA
      (envA.now - (repostHoursFor (uniqueDealsOf ds).length : ℤ) * 3600000)
      (uniqueDealsOf ds) 0 0).1

/-- Counterexample for C2: two runs one minute apart, unchanged upstream
data, history successfully updated — the second run skips the recorded
title but publishes the OTHER eligible title, so the two runs publish two
posts in total, not at most one. -/
theorem run_twice_two_posts_counterexample :
    (runPipeline envRun1 dealsTwo).inserted.length +
      (runPipeline envRun2 dealsTwo).inserted.length = 2 ∧
    (runPipeline envRun1 dealsTwo).result = .posted dealAlphaOne ∧
    (runPipeline envRun2 dealsTwo).result = .posted dealBetaTwo ∧
    (1060000 : ℤ) - 1000000 <
      (repostHoursFor (uniqueDealsOf dealsTwo).length : ℤ) * 3600000 := by
  refine ⟨by decide, by decide, by decide, by decide⟩

/-- Witness for C2 (amended) at the concrete two-run scenario. -/
theorem second_run_skips_recorded_title_witness :
    (∀ r ∈ (runPipeline envRun2 dealsTwo).inserted,
      ilikeEq recAlpha.game_title r.game_title = false) ∧
    (runPipeline envRun1 dealsTwo).inserted.length ≤ 1 :=
  ⟨(second_run_skips_recorded_title envRun1 envRun2 dealsTwo recAlpha
      (by decide) (by decide) (by decide)).1,
   (second_run_skips_recorded_title envRun1 envRun2 dealsTwo recAlpha
      (by decide) (by decide) (by decide)).2 envRun1 dealsTwo⟩
